import Mathlib

/-!
BoundedBuffer: the print manager's bounded buffer and its message codec.

A verification development for the two programs of the repository:

* `printer.c`: a ring buffer of `BUFFER_SIZE` print requests guarded by one
  mutex and two condition variables (namespace `Printer`);
* `messageQueue.c`: the same print manager over a POSIX message queue, which
  serialises each request into a text frame and parses it back (namespace
  `MessageQueue`).

C `int` and `long` values are integers (`Int`); the places where the width of
the machine type matters carry an explicit range check.  C strings are lists
of characters without the terminating NUL.  A call whose behaviour the C
standard leaves undefined (a store past the end of an array, a NULL pointer
passed to `atoi`) has the outcome `Outcome.undefined`.

The file has two parts: the definitions that embed the source, then the
theorems about them.
-/

/-- The `struct PR` of both source files: `long clientID; char *fileName; int fileSize`. -/
structure PrintRequest where
  clientID : Int
  fileName : List Char
  fileSize : Int
deriving DecidableEq

namespace Libc

/-- The terminating character of a C string. -/
def NUL : Char := Char.ofNat 0

/-- The smallest and largest values of `long`, `int` and `unsigned long` on the LP64
platforms the programs are written for (they print `pthread_t` with `%lu`). -/
def LONG_MIN : Int := -9223372036854775808

def LONG_MAX : Int := 9223372036854775807

def INT_MIN : Int := -2147483648

def INT_MAX : Int := 2147483647

def ULONG_MAX : Nat := 18446744073709551615

/-- The size in bytes of an `int`. -/
def SIZEOF_INT : Nat := 4

/-- The ways in which a call leaves the behaviour defined by the C standard. -/
inductive Fault where
  /-- A store past the end of an array or of an allocated block. -/
  | overrun
  /-- A NULL pointer passed to `atol` or `atoi`. -/
  | nullPointer
  /-- A scan for the terminator of a buffer that holds none. -/
  | unterminated
  /-- A number that the result type cannot represent. -/
  | notRepresentable
  /-- The bound on the rounds of a loop was reached (shown never to happen). -/
  | loopBound
deriving DecidableEq

/-- The outcome of a call: it returns a value, or its behaviour is undefined. -/
inductive Outcome (α : Type) where
  | done (value : α)
  | undefined (fault : Fault)
deriving DecidableEq

/-- Sequencing of calls: an undefined step makes the whole computation undefined. -/
def Outcome.bind {α β : Type} (x : Outcome α) (f : α → Outcome β) : Outcome β :=
  match x with
  | Outcome.done a => f a
  | Outcome.undefined e => Outcome.undefined e

/-- The character of a decimal digit. -/
def digitChar (d : Nat) : Char := Char.ofNat (48 + d)

/-- The decimal digits of `n`, most significant first; `fuel` bounds the number of digits. -/
def decimalFuel : Nat → Nat → List Char
  | 0, _ => []
  | fuel + 1, n =>
    if n < 10 then [digitChar n] else decimalFuel fuel (n / 10) ++ [digitChar (n % 10)]

/-- The text printed by the conversion `%lu`. -/
def decimalNat (n : Nat) : List Char := decimalFuel (n + 1) n

/-- The text printed by the conversions `%d` and `%ld`. -/
def decimalInt (z : Int) : List Char :=
  if z < 0 then '-' :: decimalNat z.natAbs else decimalNat z.toNat

/-- The white-space characters of `isspace` in the C locale: space and `\t \n \v \f \r`. -/
def isspace (c : Char) : Bool := c.toNat == 32 || (9 ≤ c.toNat && c.toNat ≤ 13)

/-- The decimal digits of `isdigit`. -/
def isdigit (c : Char) : Bool := 48 ≤ c.toNat && c.toNat ≤ 57

/-- The value of the longest prefix of decimal digits, continuing from `acc`. -/
def digitsValue : List Char → Nat → Nat
  | [], acc => acc
  | c :: cs, acc => if isdigit c then digitsValue cs (acc * 10 + (c.toNat - 48)) else acc

/-- The number that `strtol(s, NULL, 10)` reads: leading white space is skipped, an
optional sign is taken, then the longest run of digits; no digits give 0. -/
def strtolValue (s : List Char) : Int :=
  match s.dropWhile isspace with
  | '-' :: cs => -(digitsValue cs 0 : Int)
  | '+' :: cs => (digitsValue cs 0 : Int)
  | cs => (digitsValue cs 0 : Int)

/-- The call `atol(p)`: undefined on a NULL pointer and when the number read is not
representable as a `long`. -/
def atol (p : Option (List Char)) : Outcome Int :=
  match p with
  | none => Outcome.undefined Fault.nullPointer
  | some s =>
    if LONG_MIN ≤ strtolValue s ∧ strtolValue s ≤ LONG_MAX then Outcome.done (strtolValue s)
    else Outcome.undefined Fault.notRepresentable

/-- The call `atoi(p)`: undefined on a NULL pointer and when the number read is not
representable as an `int`. -/
def atoi (p : Option (List Char)) : Outcome Int :=
  match p with
  | none => Outcome.undefined Fault.nullPointer
  | some s =>
    if INT_MIN ≤ strtolValue s ∧ strtolValue s ≤ INT_MAX then Outcome.done (strtolValue s)
    else Outcome.undefined Fault.notRepresentable

/-- One call of `strtok` with the delimiter string `" "` on the text that remains:
leading spaces are skipped; at the end of the text the result is NULL; otherwise the
token runs up to the next space, which is overwritten by NUL, and the scan resumes
after it.  The result is the token and the text that remains. -/
def strtok (s : List Char) : Option (List Char) × List Char :=
  match s.dropWhile (fun c => c == ' ') with
  | [] => (none, [])
  | c :: cs => (some ((c :: cs).takeWhile (fun d => d != ' ')),
      ((c :: cs).dropWhile (fun d => d != ' ')).drop 1)

/-- A store of `text` and its terminator by `sprintf` into a block of `size` bytes. -/
def sprintfInto (size : Nat) (text : List Char) : Outcome (List Char) :=
  if text.length + 1 ≤ size then Outcome.done text else Outcome.undefined Fault.overrun

end Libc

open Libc

/-- The line `randnum = rand() % 19801 + 200;` for the value `r` that `rand()` returns. -/
def randnum (r : Nat) : Int := Int.tmod (r : Int) 19801 + 200

/-- The function `create_print_request(i)`, the same in both source files, run by the
thread whose `pthread_self()` is `tid` (an `unsigned long`), with `r` the value returned
by `rand()`.  `pid` is a block of 50 bytes and `iteration` a block of `sizeof(int)`
bytes, both filled by `sprintf`; `fileName` is a block of
`strlen(file) + strlen(pid) + strlen(iteration) + (2*strlen(delimiter) + 2) + 3` bytes.
The conversion of the thread id to the `long clientID` wraps modulo 2^64, and `i + 1`
must not overflow.  `malloc` is taken to succeed. -/
def create_print_request (tid : Nat) (i : Int) (r : Nat) : Outcome PrintRequest :=
  let file := "FILE".toList
  let delimiter := "_".toList
  let clientID : Int :=
    if (tid : Int) ≤ LONG_MAX then (tid : Int) else (tid : Int) - 18446744073709551616
  (sprintfInto 50 (decimalNat tid)).bind fun pid =>
  (if i + 1 ≤ INT_MAX then Outcome.done (i + 1)
    else Outcome.undefined Fault.notRepresentable).bind fun i1 =>
  (sprintfInto SIZEOF_INT (decimalInt i1)).bind fun iteration =>
  (sprintfInto (file.length + pid.length + iteration.length + (2 * delimiter.length + 2) + 3)
    (file ++ delimiter ++ pid ++ delimiter ++ iteration)).bind fun fileName =>
  Outcome.done { clientID := clientID, fileName := fileName, fileSize := randnum r }

/-- The loop `for(i = 0; i < 6; i ++)` of `PrintClient`, the only caller of
`create_print_request` in both source files: the requests created on its six rounds by
the thread `tid`, with `rand i` the value that `rand()` returns on round `i`. -/
def PrintClient_requests (tid : Nat) (rand : Nat → Nat) : List (Outcome PrintRequest) :=
  (List.range 6).map fun (i : Nat) => create_print_request tid (Int.ofNat i) (rand i)

namespace Printer

/-- The constant `#define BUFFER_SIZE 3` of printer.c. -/
def BUFFER_SIZE : Int := 3

/-- The globally shared variables of printer.c: the array `BoundedBuffer[BUFFER_SIZE]`
and the three `int` indices. -/
structure Globals where
  BoundedBuffer : List PrintRequest
  length_buffer : Int
  front : Int
  back : Int
deriving DecidableEq

/-- A zero-initialised `PrintRequest` (static storage; the NULL `fileName` is the empty text). -/
def zeroRequest : PrintRequest := ⟨0, [], 0⟩

/-- The state at program start: `length_buffer = 0`, `front = 0`, `back = 0` and a
zero-initialised array of `BUFFER_SIZE` slots. -/
def init : Globals :=
  { BoundedBuffer := [zeroRequest, zeroRequest, zeroRequest]
    length_buffer := 0
    front := 0
    back := 0 }

/-- The wait-loop guard of `insertIntoBuffer`: `length_buffer == BUFFER_SIZE`. -/
def insertGuard (g : Globals) : Bool := g.length_buffer == BUFFER_SIZE

/-- The wait-loop guard of `removeFromBuffer`: `length_buffer == 0`. -/
def removeGuard (g : Globals) : Bool := g.length_buffer == 0

/-- The statements of `insertIntoBuffer` after its wait loop:
`length_buffer++; back = (front + length_buffer - 1) % BUFFER_SIZE; BoundedBuffer[back] = request;`
(`%` is the truncating remainder of C).  In every reachable state the index `back`
lies inside the array (`insert_spec`). -/
def insertMutation (g : Globals) (request : PrintRequest) : Globals :=
  let length_buffer := g.length_buffer + 1
  let back := Int.tmod (g.front + length_buffer - 1) BUFFER_SIZE
  { BoundedBuffer := g.BoundedBuffer.set back.toNat request
    length_buffer := length_buffer
    front := g.front
    back := back }

/-- The statements of `removeFromBuffer` after its wait loop:
`request = BoundedBuffer[front]; length_buffer--; front = (front + 1) % BUFFER_SIZE;`
and the returned request.  In every reachable state the index `front` lies inside the
array (`Inv`). -/
def removeMutation (g : Globals) : PrintRequest × Globals :=
  let request := g.BoundedBuffer.getD g.front.toNat zeroRequest
  (request,
    { BoundedBuffer := g.BoundedBuffer
      length_buffer := g.length_buffer - 1
      front := Int.tmod (g.front + 1) BUFFER_SIZE
      back := g.back })

/-- A completed call of `insertIntoBuffer` seen as one atomic step: while the guard
`length_buffer == BUFFER_SIZE` holds the caller waits and nothing is mutated (`none`);
otherwise the mutation is performed. -/
def insertIntoBuffer (g : Globals) (request : PrintRequest) : Option Globals :=
  if insertGuard g then none else some (insertMutation g request)

/-- A completed call of `removeFromBuffer` seen as one atomic step: while the guard
`length_buffer == 0` holds the caller waits (`none`); otherwise the front request
is returned with the new state. -/
def removeFromBuffer (g : Globals) : Option (PrintRequest × Globals) :=
  if removeGuard g then none else some (removeMutation g)

/-- One operation of a trace. -/
inductive Op where
  | insert (request : PrintRequest)
  | remove
deriving DecidableEq

/-- Run a sequence of operations to completion from a state and the list of
requests returned so far; `none` when some operation of the sequence cannot
complete because its guard keeps it waiting. -/
def run : List Op → Globals × List PrintRequest → Option (Globals × List PrintRequest)
  | [], s => some s
  | Op.insert r :: ops, (g, out) =>
    match insertIntoBuffer g r with
    | none => none
    | some g1 => run ops (g1, out)
  | Op.remove :: ops, (g, out) =>
    match removeFromBuffer g with
    | none => none
    | some (r, g1) => run ops (g1, out ++ [r])

/-- The requests inserted by a sequence of operations, in insertion order. -/
def inserted : List Op → List PrintRequest
  | [] => []
  | Op.insert r :: ops => r :: inserted ops
  | Op.remove :: ops => inserted ops

/-- The requests stored in the ring: `length_buffer` slots read from index `front`,
wrapping modulo `BUFFER_SIZE`. -/
def contents (g : Globals) : List PrintRequest :=
  (List.range g.length_buffer.toNat).map fun k =>
    g.BoundedBuffer.getD (Int.tmod (g.front + (k : Int)) BUFFER_SIZE).toNat zeroRequest

/-- The representation invariant of the ring: three slots, the length between 0 and
`BUFFER_SIZE`, and `front` a valid index. -/
structure Inv (g : Globals) : Prop where
  slots : g.BoundedBuffer.length = 3
  len_nonneg : 0 ≤ g.length_buffer
  len_le : g.length_buffer ≤ BUFFER_SIZE
  front_nonneg : 0 ≤ g.front
  front_lt : g.front < BUFFER_SIZE

/-- The requests used in the concrete runs below. -/
def reqA : PrintRequest := ⟨7, "FILE_7_1".toList, 200⟩

def reqB : PrintRequest := ⟨7, "FILE_7_2".toList, 20000⟩

def reqC : PrintRequest := ⟨9, "FILE_9_1".toList, 512⟩

def reqD : PrintRequest := ⟨9, "FILE_9_2".toList, 4242⟩

/-- Four inserts and two removes, wrapping around the end of the array. -/
def sampleOps : List Op :=
  [Op.insert reqA, Op.insert reqB, Op.insert reqC, Op.remove, Op.insert reqD, Op.remove]

def sampleEnd : Globals :=
  { BoundedBuffer := [reqD, reqB, reqC], length_buffer := 2, front := 2, back := 0 }

/-! ### The threads of printer.c

Any number of threads run `PrintClient` and `PrintServer`, which call
`insertIntoBuffer` and `removeFromBuffer` over and over.  A thread is followed
statement by statement through the two functions; the threads interleave in any
order. -/

/-- The place of a thread: outside both functions, or before one of the statements
of `insertIntoBuffer` (`ins...`) or `removeFromBuffer` (`rem...`). -/
inductive PC where
  /-- Outside both functions, in `PrintClient` or `PrintServer`. -/
  | idle
  /-- Before `pthread_mutex_lock(&count_mutex)` of `insertIntoBuffer(request)`. -/
  | insLock (request : PrintRequest)
  /-- Holding the mutex, before the test `length_buffer == BUFFER_SIZE` of the loop. -/
  | insTest (request : PrintRequest)
  /-- Blocked in `pthread_cond_wait(&empty_slot, &count_mutex)`, the mutex released. -/
  | insWait (request : PrintRequest)
  /-- Woken inside `pthread_cond_wait`, before it has locked the mutex again. -/
  | insWake (request : PrintRequest)
  /-- Before `length_buffer++; back = ...; BoundedBuffer[back] = request;`. -/
  | insPut (request : PrintRequest)
  /-- Before `pthread_cond_signal(&full_slot)`. -/
  | insSignal
  /-- Before `pthread_mutex_unlock(&count_mutex)` of `insertIntoBuffer`. -/
  | insUnlock
  /-- Before `pthread_mutex_lock(&count_mutex)` of `removeFromBuffer`. -/
  | remLock
  /-- Holding the mutex, before the test `length_buffer == 0` of the loop. -/
  | remTest
  /-- Blocked in `pthread_cond_wait(&full_slot, &count_mutex)`, the mutex released. -/
  | remWait
  /-- Woken inside `pthread_cond_wait`, before it has locked the mutex again. -/
  | remWake
  /-- Before `request = BoundedBuffer[front]; length_buffer--; front = ...;`. -/
  | remTake
  /-- Before `pthread_cond_signal(&empty_slot)`, holding the request taken. -/
  | remSignal (request : PrintRequest)
  /-- Before `pthread_mutex_unlock(&count_mutex)` and `return request`. -/
  | remUnlock (request : PrintRequest)
deriving DecidableEq

/-- The thread is between the return of `pthread_mutex_lock` (or of
`pthread_cond_wait`) and `pthread_mutex_unlock`, and not inside `pthread_cond_wait`. -/
def PC.inCritical : PC → Bool
  | PC.insTest _ => true
  | PC.insPut _ => true
  | PC.insSignal => true
  | PC.insUnlock => true
  | PC.remTest => true
  | PC.remTake => true
  | PC.remSignal _ => true
  | PC.remUnlock _ => true
  | _ => false

/-- The next statement of the thread reads or writes `BoundedBuffer`, `length_buffer`,
`front` or `back`. -/
def PC.accesses : PC → Bool
  | PC.insTest _ => true
  | PC.insPut _ => true
  | PC.remTest => true
  | PC.remTake => true
  | _ => false

/-- The state of the program: the shared variables, the thread that holds `count_mutex`
(if any), the place of every thread, and two records kept for the proofs: the
operations in the order of their mutations and the requests taken, in order. -/
structure System where
  globals : Globals
  count_mutex : Option Nat
  pc : List PC
  log : List Op
  out : List PrintRequest
deriving DecidableEq

/-- The program after `main` has created `n` threads: nothing stored, the mutex free. -/
def start (n : Nat) : System :=
  { globals := init, count_mutex := none, pc := List.replicate n PC.idle, log := [], out := [] }

/-- What a thread does next: an idle thread calls one of the two functions; a thread
inside a function executes its next statement. -/
inductive Move where
  | callInsert (request : PrintRequest)
  | callRemove
  | advance
deriving DecidableEq

/-- One step of thread `t`; `none` when the step is not possible (no such thread, or
the thread is blocked on the mutex).  `pthread_mutex_lock` and the return of
`pthread_cond_wait` need the mutex free and take it; `pthread_cond_wait` releases it;
a thread blocked in `pthread_cond_wait` may be woken at any time (by a signal or
spuriously), so `pthread_cond_signal` changes nothing here. -/
def step (s : System) (t : Nat) (m : Move) : Option System :=
  match s.pc[t]?, m with
  | some PC.idle, Move.callInsert r => some { s with pc := s.pc.set t (PC.insLock r) }
  | some PC.idle, Move.callRemove => some { s with pc := s.pc.set t PC.remLock }
  | some (PC.insLock r), Move.advance =>
    if s.count_mutex = none then
      some { s with count_mutex := some t, pc := s.pc.set t (PC.insTest r) }
    else none
  | some (PC.insTest r), Move.advance =>
    if insertGuard s.globals then
      some { s with count_mutex := none, pc := s.pc.set t (PC.insWait r) }
    else some { s with pc := s.pc.set t (PC.insPut r) }
  | some (PC.insWait r), Move.advance => some { s with pc := s.pc.set t (PC.insWake r) }
  | some (PC.insWake r), Move.advance =>
    if s.count_mutex = none then
      some { s with count_mutex := some t, pc := s.pc.set t (PC.insTest r) }
    else none
  | some (PC.insPut r), Move.advance =>
    some { s with globals := insertMutation s.globals r, pc := s.pc.set t PC.insSignal,
                  log := s.log ++ [Op.insert r] }
  | some PC.insSignal, Move.advance => some { s with pc := s.pc.set t PC.insUnlock }
  | some PC.insUnlock, Move.advance =>
    some { s with count_mutex := none, pc := s.pc.set t PC.idle }
  | some PC.remLock, Move.advance =>
    if s.count_mutex = none then
      some { s with count_mutex := some t, pc := s.pc.set t PC.remTest }
    else none
  | some PC.remTest, Move.advance =>
    if removeGuard s.globals then
      some { s with count_mutex := none, pc := s.pc.set t PC.remWait }
    else some { s with pc := s.pc.set t PC.remTake }
  | some PC.remWait, Move.advance => some { s with pc := s.pc.set t PC.remWake }
  | some PC.remWake, Move.advance =>
    if s.count_mutex = none then
      some { s with count_mutex := some t, pc := s.pc.set t PC.remTest }
    else none
  | some PC.remTake, Move.advance =>
    some { s with globals := (removeMutation s.globals).2,
                  pc := s.pc.set t (PC.remSignal (removeMutation s.globals).1),
                  log := s.log ++ [Op.remove],
                  out := s.out ++ [(removeMutation s.globals).1] }
  | some (PC.remSignal r), Move.advance => some { s with pc := s.pc.set t (PC.remUnlock r) }
  | some (PC.remUnlock _), Move.advance =>
    some { s with count_mutex := none, pc := s.pc.set t PC.idle }
  | _, _ => none

/-- The steps of a schedule, one after the other; `none` when one of them is not possible. -/
def exec : System → List (Nat × Move) → Option System
  | s, [] => some s
  | s, (t, m) :: rest =>
    match step s t m with
    | none => none
    | some s1 => exec s1 rest

/-- The moves of one complete call `insertIntoBuffer(r)` by thread `t` that finds room. -/
def insertMoves (t : Nat) (r : PrintRequest) : List (Nat × Move) :=
  [(t, Move.callInsert r), (t, Move.advance), (t, Move.advance), (t, Move.advance),
    (t, Move.advance), (t, Move.advance)]

/-- The moves of one complete call `removeFromBuffer()` by thread `t` that finds a request. -/
def removeMoves (t : Nat) : List (Nat × Move) :=
  [(t, Move.callRemove), (t, Move.advance), (t, Move.advance), (t, Move.advance),
    (t, Move.advance), (t, Move.advance)]

/-- Thread 0 inserts three requests and calls `insertIntoBuffer` a fourth time: it finds
the buffer full and waits.  Thread 1 has called `removeFromBuffer` and is about to take
a request. -/
def fullSchedule : List (Nat × Move) :=
  insertMoves 0 reqA ++ insertMoves 0 reqB ++ insertMoves 0 reqC ++
    [(0, Move.callInsert reqD), (0, Move.advance), (0, Move.advance),
      (1, Move.callRemove), (1, Move.advance), (1, Move.advance)]

/-- The state that `fullSchedule` leads to. -/
def fullState : System :=
  { globals := { BoundedBuffer := [reqA, reqB, reqC], length_buffer := 3, front := 0, back := 2 }
    count_mutex := some 1
    pc := [PC.insWait reqD, PC.remTake]
    log := [Op.insert reqA, Op.insert reqB, Op.insert reqC]
    out := [] }

/-- After `fullState`: thread 1 takes a request and leaves; thread 0 wakes, finds room,
stores its request and leaves. -/
def resumeSchedule : List (Nat × Move) :=
  [(1, Move.advance), (1, Move.advance), (1, Move.advance),
    (0, Move.advance), (0, Move.advance), (0, Move.advance), (0, Move.advance),
    (0, Move.advance), (0, Move.advance)]

/-- The state that `resumeSchedule` leads to from `fullState`. -/
def resumedState : System :=
  { globals := { BoundedBuffer := [reqD, reqB, reqC], length_buffer := 3, front := 1, back := 0 }
    count_mutex := none
    pc := [PC.idle, PC.idle]
    log := [Op.insert reqA, Op.insert reqB, Op.insert reqC, Op.remove, Op.insert reqD]
    out := [reqA] }

/-- The mutex and the places of the threads agree: the thread that holds the mutex is
in its critical section, and a thread in its critical section holds the mutex. -/
def Excl (pc : List PC) (mx : Option Nat) : Prop :=
  (∀ t : Nat, mx = some t → ∃ p, pc[t]? = some p ∧ p.inCritical = true) ∧
    (∀ (t : Nat) (p : PC), pc[t]? = some p → p.inCritical = true → mx = some t)

/-- The invariant of the program: the ring is well formed, the mutex and the places
agree, a thread about to store has found room, a thread about to take has found a
request, and the shared variables are the result of the recorded operations run one
after the other. -/
structure Safe (s : System) : Prop where
  inv : Inv s.globals
  excl : Excl s.pc s.count_mutex
  put : ∀ (t : Nat) (r : PrintRequest),
    s.pc[t]? = some (PC.insPut r) → s.globals.length_buffer ≠ BUFFER_SIZE
  take : ∀ t : Nat, s.pc[t]? = some PC.remTake → s.globals.length_buffer ≠ 0
  linear : run s.log (init, []) = some (s.globals, s.out)

end Printer

namespace MessageQueue

/-- The constant `#define MESSAGE_SIZE 1024`. -/
def MESSAGE_SIZE : Nat := 1024

/-- The constant `#define ARG_SIZE 20`. -/
def ARG_SIZE : Nat := 20

/-- The array `char *args[ARG_SIZE]` of PrintServer; `none` is a NULL pointer.  Only the
indices below `ARG_SIZE` belong to the array. -/
abbrev Args := Nat → Option (List Char)

/-- The store `args[i] = p`, undefined outside the array. -/
def storeArg (args : Args) (i : Nat) (p : Option (List Char)) : Outcome Args :=
  if i < ARG_SIZE then Outcome.done (fun j => if j = i then p else args j)
  else Outcome.undefined Fault.overrun

/-- The loop of `tokenize_input` and the two statements after it, entered with the
current `count` and `arg_count` and the text that `strtok` has not scanned yet.  Each
round stores into `args[count + 1]`, so at most `ARG_SIZE` rounds stay inside the
array; `fuel` counts the rounds. -/
def tokenizeLoop : Nat → Args → Nat → Nat → List Char → Outcome (Args × Nat)
  | 0, _, _, _, _ => Outcome.undefined Fault.loopBound
  | fuel + 1, args, count, arg_count, rest =>
    match args count with
    | none => (storeArg args (count + 1) none).bind fun args1 => Outcome.done (args1, arg_count)
    | some _ =>
      (storeArg args (count + 1) (strtok rest).1).bind fun args1 =>
        tokenizeLoop fuel args1 (count + 1) (arg_count + 1) (strtok rest).2

/-- The function `tokenize_input(args, input)` for a non-NULL `input` holding the text
`input`: the new contents of `args` and the returned `arg_count`. -/
def tokenize_input (args : Args) (input : List Char) : Outcome (Args × Nat) :=
  (storeArg args 0 (strtok input).1).bind fun args1 =>
    tokenizeLoop ARG_SIZE args1 0 0 (strtok input).2

/-- The text `sprintf` produces for the format `"%ld %s %d"`. -/
def formatRequest (request : PrintRequest) : List Char :=
  decimalInt request.clientID ++ ' ' :: (request.fileName ++ ' ' :: decimalInt request.fileSize)

/-- The call `mq_send(mq, buffer, len, prio)` on a queue whose `mq_msgsize` is `msgsize`:
a message longer than `msgsize` is refused (the call returns -1) and nothing is queued
(`none`); otherwise the first `len` bytes of the buffer are queued. -/
def mq_send (msgsize : Nat) (buffer : List Char) (len : Nat) : Option (List Char) :=
  if len ≤ msgsize then some (buffer.take len) else none

/-- The serialisation and submission of `insertIntoBuffer` (its parameter `i` is unused):
`sprintf` stores the text and its terminator into `char buffer[MESSAGE_SIZE]`, whose
other bytes keep the indeterminate values `stack`, and `mq_send` is called with the
length `MESSAGE_SIZE` on the queue that `main` opens with `mq_msgsize = MESSAGE_SIZE`.
The result is the message queued, or `none` when `mq_send` returns -1 and the function
ends the process with `exit(1)`. -/
def insertIntoBuffer (stack : Nat → Char) (request : PrintRequest) :
    Outcome (Option (List Char)) :=
  (sprintfInto MESSAGE_SIZE (formatRequest request)).bind fun text =>
    Outcome.done (mq_send MESSAGE_SIZE
      (text ++ NUL :: ((List.range MESSAGE_SIZE).drop (text.length + 1)).map stack)
      MESSAGE_SIZE)

/-- The C string held by a buffer: the bytes before its first NUL.  A buffer without a
NUL makes the scan run past its end. -/
def cstring (buffer : List Char) : Outcome (List Char) :=
  if NUL ∈ buffer then Outcome.done (buffer.takeWhile (fun c => c != NUL))
  else Outcome.undefined Fault.unterminated

/-- The deserialisation of `removeFromBuffer` on the message `buffer` received by
`mq_receive`: `tokenize_input(args, buffer)`, then `atol(args[0])`, `args[1]` and
`atoi(args[2])`.  A NULL `args[1]` is reported as undefined at once: `tokenize_input`
leaves `args[1]` NULL only when `args[0]` or `args[2]` is NULL as well
(`tokenize_input_null_second`), on which `atol` or `atoi` is undefined. -/
def removeFromBuffer (args : Args) (buffer : List Char) : Outcome PrintRequest :=
  (cstring buffer).bind fun input =>
  (tokenize_input args input).bind fun tokenized =>
  (atol (tokenized.1 0)).bind fun clientID =>
  (match tokenized.1 1 with
    | none => Outcome.undefined Fault.nullPointer
    | some fileName => Outcome.done fileName).bind fun fileName =>
  (atoi (tokenized.1 2)).bind fun fileSize =>
  Outcome.done { clientID := clientID, fileName := fileName, fileSize := fileSize }

/-- A request passed through `insertIntoBuffer` and, when a message was queued, through
`removeFromBuffer` of a server whose array holds `args`. -/
def roundTrip (stack : Nat → Char) (args : Args) (request : PrintRequest) :
    Outcome (Option PrintRequest) :=
  (insertIntoBuffer stack request).bind fun sent =>
    match sent with
    | none => Outcome.done none
    | some message => (removeFromBuffer args message).bind fun r => Outcome.done (some r)

/-- The fields of a text: the tokens that successive calls of `strtok` return;
`fuel` bounds their number. -/
def tokensFuel : Nat → List Char → List (List Char)
  | 0, _ => []
  | fuel + 1, s =>
    match (strtok s).1 with
    | none => []
    | some t => t :: tokensFuel fuel (strtok s).2

/-- The space-separated fields of a text. -/
def tokens (s : List Char) : List (List Char) := tokensFuel (s.length + 1) s

/-- The values that the C type `PrintRequest` can hold: `clientID` is a `long`, `fileSize`
is an `int`, and `fileName` is a C string, which holds no NUL. -/
def Representable (request : PrintRequest) : Prop :=
  LONG_MIN ≤ request.clientID ∧ request.clientID ≤ LONG_MAX ∧
    INT_MIN ≤ request.fileSize ∧ request.fileSize ≤ INT_MAX ∧ NUL ∉ request.fileName

instance (request : PrintRequest) : Decidable (Representable request) := by
  unfold Representable
  infer_instance

/-- A field that is a decimal number: an optional minus sign and one or more digits. -/
def isDecimalField (s : List Char) : Bool :=
  match s with
  | [] => false
  | '-' :: cs => !cs.isEmpty && cs.all isdigit
  | cs => cs.all isdigit

/-- A well-formed frame text: exactly three fields, the first and the third decimal
numbers. -/
def wellFormedText (input : List Char) : Bool :=
  match tokens input with
  | [a, _, c] => isDecimalField a && isDecimalField c
  | _ => false

/-- A received message holding the text `s`, its terminator and two more bytes. -/
def messageOf (s : String) : List Char := s.toList ++ [NUL, 'x', 'x']

/-- A request whose file name has 1100 characters. -/
def bigRequest : PrintRequest := ⟨7, List.replicate 1100 'a', 200⟩

/-- A request as `create_print_request` builds it on the first round of a client. -/
def sampleRequest : PrintRequest :=
  ⟨140234567890123, "FILE_140234567890123_1".toList, 200⟩

/-- A request whose file name holds a space. -/
def spaceRequest : PrintRequest := ⟨1, "a b".toList, 5⟩

/-- An array `args` holding only NULL pointers. -/
def noArgs : Args := fun _ => none

/-- Indeterminate buffer bytes, all `x`. -/
def stackX : Nat → Char := fun _ => 'x'

end MessageQueue

/-! ## Theorems about printer.c -/

namespace Printer

theorem inv_init : Inv init := by
  constructor <;> simp [init, BUFFER_SIZE]

/-- Every state with three slots is a list of three requests. -/
theorem three_slots {l : List PrintRequest} (h : l.length = 3) :
    ∃ a b c, l = [a, b, c] := by
  match l, h with
  | [a, b, c], _ => exact ⟨a, b, c, rfl⟩

/-- An enabled insert keeps the invariant, writes inside the array, and appends
its request at the tail of the stored sequence. -/
theorem insert_spec (g : Globals) (r : PrintRequest) (hI : Inv g)
    (hg : g.length_buffer ≠ BUFFER_SIZE) :
    Inv (insertMutation g r) ∧
      0 ≤ (insertMutation g r).back ∧ (insertMutation g r).back < BUFFER_SIZE ∧
      contents (insertMutation g r) = contents g ++ [r] ∧
      (insertMutation g r).BoundedBuffer.getD (insertMutation g r).back.toNat zeroRequest = r := by
  obtain ⟨bb, len, fr, bk⟩ := g
  obtain ⟨hs, h0, h3, f0, f3⟩ := hI
  simp only [BUFFER_SIZE] at *
  obtain ⟨a, b, c, rfl⟩ := three_slots hs
  have hlen : len = 0 ∨ len = 1 ∨ len = 2 := by omega
  have hfr : fr = 0 ∨ fr = 1 ∨ fr = 2 := by omega
  have t0 : Int.tmod 0 3 = 0 := by decide
  have t1 : Int.tmod 1 3 = 1 := by decide
  have t2 : Int.tmod 2 3 = 2 := by decide
  have t3 : Int.tmod 3 3 = 0 := by decide
  have t4 : Int.tmod 4 3 = 1 := by decide
  rcases hlen with rfl | rfl | rfl <;> rcases hfr with rfl | rfl | rfl <;>
    refine ⟨⟨?_, ?_, ?_, ?_, ?_⟩, ?_, ?_, ?_, ?_⟩ <;>
    simp [insertMutation, contents, BUFFER_SIZE, List.range_succ, t0, t1, t2, t3, t4]

/-- An enabled remove keeps the invariant and returns the head of the stored
sequence, leaving its tail. -/
theorem remove_spec (g : Globals) (hI : Inv g) (hg : g.length_buffer ≠ 0) :
    Inv (removeMutation g).2 ∧
      contents g = (removeMutation g).1 :: contents (removeMutation g).2 := by
  obtain ⟨bb, len, fr, bk⟩ := g
  obtain ⟨hs, h0, h3, f0, f3⟩ := hI
  simp only [BUFFER_SIZE] at *
  obtain ⟨a, b, c, rfl⟩ := three_slots hs
  have hlen : len = 1 ∨ len = 2 ∨ len = 3 := by omega
  have hfr : fr = 0 ∨ fr = 1 ∨ fr = 2 := by omega
  have t0 : Int.tmod 0 3 = 0 := by decide
  have t1 : Int.tmod 1 3 = 1 := by decide
  have t2 : Int.tmod 2 3 = 2 := by decide
  have t3 : Int.tmod 3 3 = 0 := by decide
  have t4 : Int.tmod 4 3 = 1 := by decide
  rcases hlen with rfl | rfl | rfl <;> rcases hfr with rfl | rfl | rfl <;>
    refine ⟨⟨?_, ?_, ?_, ?_, ?_⟩, ?_⟩ <;>
    simp [removeMutation, contents, BUFFER_SIZE, List.range_succ, t0, t1, t2, t3, t4]

theorem insertIntoBuffer_some {g g1 : Globals} {r : PrintRequest}
    (h : insertIntoBuffer g r = some g1) :
    g.length_buffer ≠ BUFFER_SIZE ∧ g1 = insertMutation g r := by
  unfold insertIntoBuffer insertGuard at h
  by_cases hc : g.length_buffer = BUFFER_SIZE
  · simp [hc] at h
  · simp [hc] at h
    exact ⟨hc, h.symm⟩

theorem removeFromBuffer_some {g : Globals} {p : PrintRequest × Globals}
    (h : removeFromBuffer g = some p) :
    g.length_buffer ≠ 0 ∧ p = removeMutation g := by
  unfold removeFromBuffer removeGuard at h
  by_cases hc : g.length_buffer = 0
  · simp [hc] at h
  · simp [hc] at h
    exact ⟨hc, h.symm⟩

/-- Running any sequence of operations from a state of the invariant ends in a
state of the invariant, and the requests returned followed by the requests
stored are the earlier ones followed by the requests inserted. -/
theorem run_spec (ops : List Op) :
    ∀ (g : Globals) (out : List PrintRequest) (g1 : Globals) (out1 : List PrintRequest),
      Inv g → run ops (g, out) = some (g1, out1) →
      Inv g1 ∧ out1 ++ contents g1 = out ++ contents g ++ inserted ops := by
  induction ops with
  | nil =>
    intro g out g1 out1 hI h
    simp only [run, Option.some.injEq, Prod.mk.injEq] at h
    obtain ⟨rfl, rfl⟩ := h
    exact ⟨hI, by simp [inserted]⟩
  | cons op ops ih =>
    intro g out g1 out1 hI h
    cases op with
    | insert r =>
      simp only [run] at h
      cases hins : insertIntoBuffer g r with
      | none => simp [hins] at h
      | some g2 =>
        simp only [hins] at h
        obtain ⟨hg, rfl⟩ := insertIntoBuffer_some hins
        obtain ⟨hI2, _, _, hc, _⟩ := insert_spec g r hI hg
        obtain ⟨hI1, heq⟩ := ih _ _ _ _ hI2 h
        refine ⟨hI1, ?_⟩
        rw [heq, hc]
        simp [inserted]
    | remove =>
      simp only [run] at h
      cases hrem : removeFromBuffer g with
      | none => simp [hrem] at h
      | some p =>
        obtain ⟨r, g2⟩ := p
        simp only [hrem] at h
        obtain ⟨hg, hp⟩ := removeFromBuffer_some hrem
        obtain ⟨hI2, hc⟩ := remove_spec g hI hg
        rw [← hp] at hI2 hc
        obtain ⟨hI1, heq⟩ := ih _ _ _ _ hI2 h
        refine ⟨hI1, ?_⟩
        rw [heq, hc]
        simp [inserted]

theorem contents_init : contents init = [] := by
  simp [contents, init]

theorem contents_nil_of_length_zero {g : Globals} (h : g.length_buffer = 0) :
    contents g = [] := by
  simp [contents, h]

/-- C1: bounded-capacity invariant.  After every finite sequence of completed
insertIntoBuffer and removeFromBuffer operations from the initial state, the
value of length_buffer lies between 0 and BUFFER_SIZE = 3. -/
theorem length_buffer_bounded (ops : List Op) (g : Globals) (out : List PrintRequest)
    (h : run ops (init, []) = some (g, out)) :
    0 ≤ g.length_buffer ∧ g.length_buffer ≤ BUFFER_SIZE ∧ BUFFER_SIZE = 3 := by
  obtain ⟨hI, _⟩ := run_spec ops init [] g out inv_init h
  exact ⟨hI.len_nonneg, hI.len_le, rfl⟩

theorem length_buffer_bounded_witness :
    run sampleOps (init, []) = some (sampleEnd, [reqA, reqB]) ∧
      (0 ≤ sampleEnd.length_buffer ∧ sampleEnd.length_buffer ≤ BUFFER_SIZE ∧ BUFFER_SIZE = 3) :=
  ⟨by decide, length_buffer_bounded sampleOps sampleEnd [reqA, reqB] (by decide)⟩

/-- C2: FIFO delivery with no loss and no duplication.  After every finite sequence
of completed operations from the initial empty state, the requests returned by
the removes, in order, followed by the requests stored in the ring from front,
are exactly the requests inserted, in insertion order; an insert that completes
appends its request after the stored ones without changing them; and when the
buffer is drained the returned requests are exactly the inserted ones. -/
theorem fifo_no_loss_no_duplication (ops : List Op) (g : Globals) (out : List PrintRequest)
    (h : run ops (init, []) = some (g, out)) :
    out ++ contents g = inserted ops ∧
      (∀ r g1, insertIntoBuffer g r = some g1 → contents g1 = contents g ++ [r]) ∧
      (g.length_buffer = 0 → out = inserted ops) := by
  obtain ⟨hI, heq⟩ := run_spec ops init [] g out inv_init h
  rw [contents_init] at heq
  simp only [List.nil_append] at heq
  refine ⟨heq, ?_, ?_⟩
  · intro r g1 hins
    obtain ⟨hg, rfl⟩ := insertIntoBuffer_some hins
    exact (insert_spec g r hI hg).2.2.2.1
  · intro h0
    rw [contents_nil_of_length_zero h0, List.append_nil] at heq
    exact heq

theorem fifo_no_loss_no_duplication_witness :
    run sampleOps (init, []) = some (sampleEnd, [reqA, reqB]) ∧
      ([reqA, reqB] ++ contents sampleEnd = inserted sampleOps ∧
        (∀ r g1, insertIntoBuffer sampleEnd r = some g1 →
          contents g1 = contents sampleEnd ++ [r]) ∧
        (sampleEnd.length_buffer = 0 → [reqA, reqB] = inserted sampleOps)) :=
  ⟨by decide, fifo_no_loss_no_duplication sampleOps sampleEnd [reqA, reqB] (by decide)⟩

end Printer

/-! ## Theorems about the C library functions used by the codec -/

namespace Libc

/-- The characters of the ten digits: recognised by `isdigit`, worth their digit, and
different from the space, the signs, the white space and the terminator. -/
theorem digitChar_spec (d : Nat) (h : d < 10) :
    isdigit (digitChar d) = true ∧ (digitChar d).toNat - 48 = d ∧
      digitChar d ≠ ' ' ∧ digitChar d ≠ NUL ∧ digitChar d ≠ '-' ∧ digitChar d ≠ '+' ∧
      isspace (digitChar d) = false := by
  interval_cases d <;> decide

/-- Every character of a decimal text is a digit character. -/
theorem decimalFuel_digits (fuel : Nat) :
    ∀ n c, c ∈ decimalFuel fuel n → ∃ d, d < 10 ∧ c = digitChar d := by
  induction fuel with
  | zero => intro n c h; simp [decimalFuel] at h
  | succ fuel ih =>
    intro n c h
    unfold decimalFuel at h
    by_cases hn : n < 10
    · simp only [hn, if_true, List.mem_singleton] at h
      exact ⟨n, hn, h⟩
    · simp only [hn, if_false, List.mem_append, List.mem_singleton] at h
      rcases h with h | h
      · exact ih _ _ h
      · exact ⟨n % 10, Nat.mod_lt _ (by norm_num), h⟩

/-- A decimal text produced with fuel starts with a digit character. -/
theorem decimalFuel_head (fuel : Nat) :
    ∀ n, ∃ d cs, d < 10 ∧ decimalFuel (fuel + 1) n = digitChar d :: cs := by
  induction fuel with
  | zero =>
    intro n
    unfold decimalFuel
    by_cases hn : n < 10
    · exact ⟨n, [], hn, by simp [hn]⟩
    · exact ⟨n % 10, [], Nat.mod_lt _ (by norm_num), by simp [hn, decimalFuel]⟩
  | succ fuel ih =>
    intro n
    by_cases hn : n < 10
    · exact ⟨n, [], hn, by simp [decimalFuel, hn]⟩
    · obtain ⟨d, cs, hd, hcs⟩ := ih (n / 10)
      refine ⟨d, cs ++ [digitChar (n % 10)], hd, ?_⟩
      rw [decimalFuel]
      simp only [hn, if_false]
      rw [hcs]
      rfl

/-- Reading back a decimal text gives the number printed. -/
theorem digitsValue_decimalFuel (fuel : Nat) :
    ∀ n rest, n < fuel →
      digitsValue (decimalFuel fuel n ++ rest) 0 = digitsValue rest n := by
  induction fuel with
  | zero => intro n rest h; omega
  | succ fuel ih =>
    intro n rest h
    unfold decimalFuel
    by_cases hn : n < 10
    · obtain ⟨h1, h2, _⟩ := digitChar_spec n hn
      simp [hn, digitsValue, h1, h2]
    · simp only [hn, if_false, List.append_assoc, List.singleton_append]
      rw [ih (n / 10) _ (by omega)]
      obtain ⟨h1, h2, _⟩ := digitChar_spec (n % 10) (Nat.mod_lt _ (by norm_num))
      simp only [digitsValue, h1, if_true, h2]
      congr 1
      omega

theorem digitsValue_decimalNat (n : Nat) : digitsValue (decimalNat n) 0 = n := by
  have h := digitsValue_decimalFuel (n + 1) n [] (by omega)
  simpa [decimalNat, digitsValue] using h

/-- The number of characters of a decimal text. -/
theorem decimalFuel_length (fuel : Nat) :
    ∀ n k, 0 < k → n < 10 ^ k → (decimalFuel fuel n).length ≤ k := by
  induction fuel with
  | zero => intro n k _ _; simp [decimalFuel]
  | succ fuel ih =>
    intro n k hk hn
    unfold decimalFuel
    by_cases h10 : n < 10
    · simp [h10]; omega
    · simp only [h10, if_false, List.length_append, List.length_singleton]
      have hk2 : 2 ≤ k := by
        by_contra hc
        have : k = 1 := by omega
        subst this
        simp at hn
        omega
      have : (decimalFuel fuel (n / 10)).length ≤ k - 1 := by
        apply ih _ _ (by omega)
        have hp : 10 ^ k = 10 ^ (k - 1) * 10 := by
          rw [← pow_succ]
          congr 1
          omega
        rw [hp] at hn
        exact Nat.div_lt_of_lt_mul (by rw [Nat.mul_comm]; exact hn)
      omega

theorem decimalNat_length (n k : Nat) (hk : 0 < k) (hn : n < 10 ^ k) :
    (decimalNat n).length ≤ k :=
  decimalFuel_length _ n k hk hn

theorem decimalNat_digits (n : Nat) (c : Char) (h : c ∈ decimalNat n) :
    ∃ d, d < 10 ∧ c = digitChar d :=
  decimalFuel_digits _ n c h

/-- Every character of the text of `%d` is a digit or the minus sign; none is a
space or the terminator. -/
theorem decimalInt_chars (z : Int) (c : Char) (h : c ∈ decimalInt z) :
    c ≠ ' ' ∧ c ≠ NUL := by
  unfold decimalInt at h
  by_cases hz : z < 0
  · simp only [hz, if_true, List.mem_cons] at h
    rcases h with h | h
    · subst h; decide
    · obtain ⟨d, hd, rfl⟩ := decimalNat_digits _ _ h
      obtain ⟨_, _, h3, h4, _⟩ := digitChar_spec d hd
      exact ⟨h3, h4⟩
  · simp only [hz, if_false] at h
    obtain ⟨d, hd, rfl⟩ := decimalNat_digits _ _ h
    obtain ⟨_, _, h3, h4, _⟩ := digitChar_spec d hd
    exact ⟨h3, h4⟩

theorem decimalInt_ne_nil (z : Int) : decimalInt z ≠ [] := by
  unfold decimalInt
  by_cases hz : z < 0
  · simp [hz]
  · obtain ⟨d, cs, _, h⟩ := decimalFuel_head z.toNat z.toNat
    simp [hz, decimalNat, h]

theorem decimalInt_length (z : Int) (k : Nat) (hk : 0 < k) (hz : z.natAbs < 10 ^ k) :
    (decimalInt z).length ≤ k + 1 := by
  unfold decimalInt
  by_cases h : z < 0
  · simp only [h, if_true, List.length_cons]
    have := decimalNat_length z.natAbs k hk hz
    omega
  · simp only [h, if_false]
    have : z.toNat = z.natAbs := by omega
    rw [this]
    have := decimalNat_length z.natAbs k hk hz
    omega

/-- The number read from a decimal text: `strtol` reads back what `%d` and `%ld` print. -/
theorem strtolValue_decimalInt (z : Int) : strtolValue (decimalInt z) = z := by
  unfold decimalInt
  by_cases hz : z < 0
  · simp only [hz, if_true]
    have hd : ('-' :: decimalNat z.natAbs).dropWhile isspace = '-' :: decimalNat z.natAbs := by
      rw [List.dropWhile_cons_of_neg]
      decide
    unfold strtolValue
    rw [hd]
    simp only [digitsValue_decimalNat]
    omega
  · simp only [hz, if_false]
    obtain ⟨d, cs, hd, hcs⟩ := decimalFuel_head z.toNat z.toNat
    obtain ⟨_, _, _, _, h5, h6, h7⟩ := digitChar_spec d hd
    have hv := digitsValue_decimalNat z.toNat
    unfold decimalNat at hv ⊢
    rw [hcs] at hv ⊢
    have hdrop : (digitChar d :: cs).dropWhile isspace = digitChar d :: cs := by
      rw [List.dropWhile_cons_of_neg]
      simp [h7]
    unfold strtolValue
    rw [hdrop]
    split
    · rename_i heq
      simp only [List.cons.injEq] at heq
      exact absurd heq.1 h5
    · rename_i heq
      simp only [List.cons.injEq] at heq
      exact absurd heq.1 h6
    · rw [hv]
      omega

end Libc

namespace Libc

theorem dropWhile_space_of_head {c : Char} {cs : List Char} (h : c ≠ ' ') :
    (c :: cs).dropWhile (fun c => c == ' ') = c :: cs := by
  rw [List.dropWhile_cons_of_neg]
  simpa using h

theorem takeWhile_not_space (t rest : List Char) (h : ' ' ∉ t) :
    (t ++ ' ' :: rest).takeWhile (fun d => d != ' ') = t ∧
      (t ++ ' ' :: rest).dropWhile (fun d => d != ' ') = ' ' :: rest := by
  induction t with
  | nil => simp
  | cons c cs ih =>
    have hc : c ≠ ' ' := fun e => h (by simp [e])
    have hcs : ' ' ∉ cs := fun e => h (by simp [e])
    obtain ⟨h1, h2⟩ := ih hcs
    simp [List.takeWhile_cons, List.dropWhile_cons, hc, h1, h2]

theorem takeWhile_not_space_all (t : List Char) (h : ' ' ∉ t) :
    t.takeWhile (fun d => d != ' ') = t ∧ t.dropWhile (fun d => d != ' ') = [] := by
  induction t with
  | nil => simp
  | cons c cs ih =>
    have hc : c ≠ ' ' := fun e => h (by simp [e])
    have hcs : ' ' ∉ cs := fun e => h (by simp [e])
    obtain ⟨h1, h2⟩ := ih hcs
    simp [List.takeWhile_cons, List.dropWhile_cons, hc, h1, h2]

/-- A non-empty space-free text followed by a space is the next token, and the scan
resumes after that space. -/
theorem strtok_token (t rest : List Char) (hne : t ≠ []) (h : ' ' ∉ t) :
    strtok (t ++ ' ' :: rest) = (some t, rest) := by
  obtain ⟨c, cs, rfl⟩ := List.exists_cons_of_ne_nil hne
  have hc : c ≠ ' ' := fun e => h (by simp [e])
  obtain ⟨h1, h2⟩ := takeWhile_not_space (c :: cs) rest h
  unfold strtok
  rw [List.cons_append, dropWhile_space_of_head hc]
  show (some (List.takeWhile (fun d => d != ' ') (c :: (cs ++ ' ' :: rest))),
    List.drop 1 (List.dropWhile (fun d => d != ' ') (c :: (cs ++ ' ' :: rest)))) = _
  rw [← List.cons_append, h1, h2]
  rfl

/-- A non-empty space-free text at the end of the string is the last token. -/
theorem strtok_last (t : List Char) (hne : t ≠ []) (h : ' ' ∉ t) :
    strtok t = (some t, []) := by
  obtain ⟨c, cs, rfl⟩ := List.exists_cons_of_ne_nil hne
  have hc : c ≠ ' ' := fun e => h (by simp [e])
  obtain ⟨h1, h2⟩ := takeWhile_not_space_all (c :: cs) h
  unfold strtok
  rw [dropWhile_space_of_head hc]
  show (some (List.takeWhile (fun d => d != ' ') (c :: cs)),
    List.drop 1 (List.dropWhile (fun d => d != ' ') (c :: cs))) = _
  rw [h1, h2]
  rfl

theorem strtok_nil : strtok [] = (none, []) := rfl

/-- A token never contains a space and is never empty. -/
theorem strtok_some (s t : List Char) (h : (strtok s).1 = some t) : ' ' ∉ t ∧ t ≠ [] := by
  unfold strtok at h
  split at h
  · simp at h
  · rename_i c cs heq
    simp only [Option.some.injEq] at h
    subst h
    constructor
    · intro hmem
      have := List.mem_takeWhile_imp hmem
      simp at this
    · have hc : (fun c => c == ' ') c = false := by
        have := List.head_dropWhile_not (fun c => c == ' ') s
          (by rw [heq]; simp)
        simpa [heq] using this
      have hc2 : (c != ' ') = true := by simpa using hc
      simp [List.takeWhile_cons, hc2]

/-- What is left after a token is shorter than the text scanned. -/
theorem strtok_rest_length (s : List Char) : (strtok s).2.length ≤ s.length - 1 ∨ s = [] := by
  unfold strtok
  split
  · rename_i heq
    cases s with
    | nil => right; rfl
    | cons => left; simp
  · rename_i c cs heq
    left
    have h1 : (List.dropWhile (fun c => c == ' ') s).length ≤ s.length :=
      (List.dropWhile_sublist _).length_le
    rw [heq] at h1
    have h2 : (List.dropWhile (fun d => d != ' ') (c :: cs)).length ≤ (c :: cs).length :=
      (List.dropWhile_sublist _).length_le
    simp only [List.length_drop]
    simp only [List.length_cons] at h1 h2
    have h3 : (List.dropWhile (fun d => d != ' ') (c :: cs)).length ≤ cs.length := by
      have hc : (fun c => c == ' ') c = false := by
        have := List.head_dropWhile_not (fun c => c == ' ') s
          (by rw [heq]; simp)
        simpa [heq] using this
      have hc2 : (c != ' ') = true := by simpa using hc
      simp only [List.dropWhile_cons, hc2, if_true]
      exact (List.dropWhile_sublist _).length_le
    omega

end Libc

/-! ## Theorems about messageQueue.c -/

namespace MessageQueue

@[simp] theorem bind_done {α β : Type} (a : α) (f : α → Outcome β) :
    (Outcome.done a).bind f = f a := rfl

@[simp] theorem bind_undefined {α β : Type} (e : Fault) (f : α → Outcome β) :
    (Outcome.undefined e : Outcome α).bind f = Outcome.undefined e := rfl

/-- A computation that is done had both of its steps done. -/
theorem bind_eq_done {α β : Type} {x : Outcome α} {f : α → Outcome β} {b : β}
    (h : x.bind f = Outcome.done b) : ∃ a, x = Outcome.done a ∧ f a = Outcome.done b := by
  cases x with
  | done a => exact ⟨a, rfl, h⟩
  | undefined e => simp at h

theorem storeArg_of_lt (args : Args) (i : Nat) (p : Option (List Char)) (h : i < ARG_SIZE) :
    storeArg args i p = Outcome.done (fun j => if j = i then p else args j) := by
  simp [storeArg, h]

theorem storeArg_done {args args1 : Args} {i : Nat} {p : Option (List Char)}
    (h : storeArg args i p = Outcome.done args1) :
    i < ARG_SIZE ∧ args1 = fun j => if j = i then p else args j := by
  unfold storeArg at h
  by_cases hi : i < ARG_SIZE
  · simp only [hi, if_true, Outcome.done.injEq] at h
    exact ⟨hi, h.symm⟩
  · simp [hi] at h

theorem storeArg_ne_loopBound (args : Args) (i : Nat) (p : Option (List Char)) :
    storeArg args i p ≠ Outcome.undefined Fault.loopBound := by
  unfold storeArg
  by_cases hi : i < ARG_SIZE <;> simp [hi]

/-- The rounds of the loop stay inside the array or end in an overrun: the bound on
the number of rounds is never reached. -/
theorem tokenizeLoop_ne_loopBound (fuel : Nat) :
    ∀ (args : Args) (count arg_count : Nat) (rest : List Char),
      0 < fuel → ARG_SIZE ≤ count + fuel →
      tokenizeLoop fuel args count arg_count rest ≠ Outcome.undefined Fault.loopBound := by
  induction fuel with
  | zero => intro _ _ _ _ h; omega
  | succ fuel ih =>
    intro args count arg_count rest _ hb
    unfold tokenizeLoop
    cases hcur : args count with
    | none =>
      simp only []
      by_cases hi : count + 1 < ARG_SIZE
      · simp [storeArg_of_lt _ _ _ hi]
      · simp [storeArg, hi]
    | some t =>
      simp only []
      by_cases hi : count + 1 < ARG_SIZE
      · rw [storeArg_of_lt _ _ _ hi, bind_done]
        exact ih _ _ _ _ (by omega) (by omega)
      · simp [storeArg, hi]

theorem tokenize_input_ne_loopBound (args : Args) (input : List Char) :
    tokenize_input args input ≠ Outcome.undefined Fault.loopBound := by
  unfold tokenize_input
  rw [storeArg_of_lt _ _ _ (by decide), bind_done]
  exact tokenizeLoop_ne_loopBound _ _ _ _ _ (by decide) (by decide)

/-- The loop stores only above the index it is entered with. -/
theorem tokenizeLoop_frame (fuel : Nat) :
    ∀ (args : Args) (count arg_count : Nat) (rest : List Char) (args1 : Args) (n : Nat),
      tokenizeLoop fuel args count arg_count rest = Outcome.done (args1, n) →
      ∀ j, j ≤ count → args1 j = args j := by
  induction fuel with
  | zero => intro _ _ _ _ _ _ h; simp [tokenizeLoop] at h
  | succ fuel ih =>
    intro args count arg_count rest args1 n h j hj
    unfold tokenizeLoop at h
    cases hcur : args count with
    | none =>
      simp only [hcur] at h
      obtain ⟨a, ha, hd⟩ := bind_eq_done h
      obtain ⟨_, rfl⟩ := storeArg_done ha
      simp only [Outcome.done.injEq, Prod.mk.injEq] at hd
      rw [← hd.1]
      simp [show j ≠ count + 1 by omega]
    | some t =>
      simp only [hcur] at h
      obtain ⟨a, ha, hd⟩ := bind_eq_done h
      obtain ⟨_, rfl⟩ := storeArg_done ha
      rw [ih _ _ _ _ _ _ hd j (by omega)]
      simp [show j ≠ count + 1 by omega]

/-- When `tokenize_input` leaves the second pointer NULL, the first or the third is
NULL too. -/
theorem tokenize_input_null_second (args : Args) (input : List Char) (args1 : Args) (n : Nat)
    (h : tokenize_input args input = Outcome.done (args1, n)) (h1 : args1 1 = none) :
    args1 0 = none ∨ args1 2 = none := by
  unfold tokenize_input at h
  rw [storeArg_of_lt _ _ _ (by decide), bind_done] at h
  unfold ARG_SIZE tokenizeLoop at h
  split at h
  · rename_i h0
    obtain ⟨a, ha, hd⟩ := bind_eq_done h
    obtain ⟨_, rfl⟩ := storeArg_done ha
    simp only [Outcome.done.injEq, Prod.mk.injEq] at hd
    left
    rw [← hd.1]
    simpa using h0
  · obtain ⟨a, ha, hd⟩ := bind_eq_done h
    obtain ⟨_, rfl⟩ := storeArg_done ha
    unfold tokenizeLoop at hd
    split at hd
    · obtain ⟨b, hb, hd2⟩ := bind_eq_done hd
      obtain ⟨_, rfl⟩ := storeArg_done hb
      simp only [Outcome.done.injEq, Prod.mk.injEq] at hd2
      right
      rw [← hd2.1]
      simp
    · rename_i t ht
      obtain ⟨b, hb, hd2⟩ := bind_eq_done hd
      obtain ⟨_, rfl⟩ := storeArg_done hb
      have := tokenizeLoop_frame _ _ _ _ _ _ _ hd2 1 (by omega)
      rw [h1] at this
      simp at this
      simp only [Nat.zero_add, if_true] at ht
      rw [← this] at ht
      simp at ht

/-- The second pointer left by `tokenize_input` is NULL or a token. -/
theorem tokenize_input_second (args : Args) (input : List Char) (args1 : Args) (n : Nat)
    (h : tokenize_input args input = Outcome.done (args1, n)) :
    args1 1 = none ∨ ∃ s, args1 1 = (strtok s).1 := by
  unfold tokenize_input at h
  rw [storeArg_of_lt _ _ _ (by decide), bind_done] at h
  unfold ARG_SIZE tokenizeLoop at h
  split at h
  · obtain ⟨a, ha, hd⟩ := bind_eq_done h
    obtain ⟨_, rfl⟩ := storeArg_done ha
    simp only [Outcome.done.injEq, Prod.mk.injEq] at hd
    left
    rw [← hd.1]
    simp
  · obtain ⟨a, ha, hd⟩ := bind_eq_done h
    obtain ⟨_, rfl⟩ := storeArg_done ha
    right
    refine ⟨(strtok input).2, ?_⟩
    rw [tokenizeLoop_frame _ _ _ _ _ _ _ hd 1 (by omega)]
    simp

end MessageQueue

namespace MessageQueue

/-- The fields do not depend on the fuel once it exceeds the length of the text. -/
theorem tokensFuel_stable (f1 : Nat) :
    ∀ (f2 : Nat) (s : List Char), s.length < f1 → s.length < f2 →
      tokensFuel f1 s = tokensFuel f2 s := by
  induction f1 with
  | zero => intro _ _ h; omega
  | succ f1 ih =>
    intro f2 s h1 h2
    cases f2 with
    | zero => omega
    | succ f2 =>
      unfold tokensFuel
      cases ht : (strtok s).1 with
      | none => rfl
      | some t =>
        simp only []
        rcases strtok_rest_length s with hl | hnil
        · have hs : s ≠ [] := by
            intro e
            rw [e, strtok_nil] at ht
            simp at ht
          have : 0 < s.length := List.length_pos.mpr hs
          rw [ih f2 _ (by omega) (by omega)]
        · rw [hnil, strtok_nil] at ht
          simp at ht

/-- The fields of a text are its first token followed by the fields of what remains. -/
theorem tokens_unfold (s : List Char) :
    tokens s = match (strtok s).1 with
      | none => []
      | some t => t :: tokens (strtok s).2 := by
  unfold tokens
  rw [tokensFuel]
  cases ht : (strtok s).1 with
  | none => rfl
  | some t =>
    simp only []
    rcases strtok_rest_length s with hl | hnil
    · have hs : s ≠ [] := by
        intro e
        rw [e, strtok_nil] at ht
        simp at ht
      have : 0 < s.length := List.length_pos.mpr hs
      rw [tokensFuel_stable _ ((strtok s).2.length + 1) _ (by omega) (by omega)]
    · rw [hnil, strtok_nil] at ht
      simp at ht

/-- The loop of `tokenize_input`, entered on a non-NULL `args[count]` with room in the
array for the fields that remain and the two NULL pointers after them: it ends, counts
one more than the remaining fields, leaves the pointers up to `count` alone and stores
the remaining fields, in order, from `count + 1`. -/
theorem tokenizeLoop_spec (fuel : Nat) :
    ∀ (args : Args) (count arg_count : Nat) (rest : List Char),
      (args count).isSome → (tokens rest).length + 2 ≤ fuel →
      count + (tokens rest).length + 2 < ARG_SIZE →
      ∃ args1, tokenizeLoop fuel args count arg_count rest =
          Outcome.done (args1, arg_count + (tokens rest).length + 1) ∧
        (∀ j, j ≤ count → args1 j = args j) ∧
        (∀ k, k ≤ (tokens rest).length → args1 (count + 1 + k) = (tokens rest)[k]?) := by
  induction fuel with
  | zero => intro _ _ _ _ _ h; omega
  | succ fuel ih =>
    intro args count arg_count rest hcur hfuel hroom
    obtain ⟨t0, ht0⟩ := Option.isSome_iff_exists.mp hcur
    rw [tokenizeLoop]
    simp only [ht0]
    rw [storeArg_of_lt _ _ _ (by omega), bind_done]
    have hunf := tokens_unfold rest
    cases ht : (strtok rest).1 with
    | none =>
      simp only [ht] at hunf
      cases fuel with
      | zero => omega
      | succ fuel =>
        rw [tokenizeLoop]
        simp only [if_true]
        rw [storeArg_of_lt _ _ _ (by omega), bind_done]
        refine ⟨fun j => if j = count + 1 + 1 then none
          else if j = count + 1 then none else args j, ?_, ?_, ?_⟩
        · simp [hunf]
        · intro j hj
          simp [show j ≠ count + 1 + 1 by omega, show j ≠ count + 1 by omega]
        · intro k hk
          rw [hunf] at hk ⊢
          simp only [List.length_nil, Nat.le_zero_eq] at hk
          subst hk
          simp
    | some t =>
      simp only [ht] at hunf
      rw [hunf] at hfuel hroom
      simp only [List.length_cons] at hfuel hroom
      obtain ⟨args1, h1, h2, h3⟩ := ih (fun j => if j = count + 1 then some t else args j)
        (count + 1) (arg_count + 1) (strtok rest).2 (by simp) (by omega) (by omega)
      refine ⟨args1, ?_, ?_, ?_⟩
      · rw [h1, hunf]
        simp only [List.length_cons]
        congr 2
        omega
      · intro j hj
        rw [h2 j (by omega)]
        simp [show j ≠ count + 1 by omega]
      · intro k hk
        rw [hunf] at hk ⊢
        cases k with
        | zero =>
          rw [h2 (count + 1) (by omega)]
          simp
        | succ k =>
          simp only [List.length_cons] at hk
          have := h3 k (by omega)
          rw [show count + 1 + (k + 1) = count + 1 + 1 + k by omega, this]
          simp

/-- The result of `tokenize_input` on a text of at least one and at most
`ARG_SIZE - 2` fields: the pointers to the fields, in order, then NULL. -/
theorem tokenize_input_spec (args : Args) (input : List Char)
    (hpos : 0 < (tokens input).length) (hle : (tokens input).length + 2 ≤ ARG_SIZE) :
    ∃ args1, tokenize_input args input = Outcome.done (args1, (tokens input).length) ∧
      ∀ k, k ≤ (tokens input).length → args1 k = (tokens input)[k]? := by
  have hunf := tokens_unfold input
  cases ht : (strtok input).1 with
  | none =>
    simp only [ht] at hunf
    rw [hunf] at hpos
    simp at hpos
  | some t =>
    simp only [ht] at hunf
    rw [hunf] at hle ⊢
    simp only [List.length_cons] at hle ⊢
    unfold tokenize_input
    rw [storeArg_of_lt _ _ _ (by decide), bind_done, ht]
    obtain ⟨args1, h1, h2, h3⟩ := tokenizeLoop_spec ARG_SIZE
      (fun j => if j = 0 then some t else args j) 0 0 (strtok input).2 (by simp)
      (by omega) (by omega)
    refine ⟨args1, ?_, ?_⟩
    · rw [h1]
      congr 2
      omega
    · intro k hk
      cases k with
      | zero =>
        rw [h2 0 (by omega)]
        simp
      | succ k =>
        have := h3 k (by omega)
        rw [show args1 (k + 1) = args1 (0 + 1 + k) by congr 1; omega, this]
        simp

/-- The text of three non-empty space-free fields separated by single spaces has
exactly these three fields. -/
theorem tokens_three (a b c : List Char) (ha : a ≠ []) (hb : b ≠ []) (hc : c ≠ [])
    (ha1 : ' ' ∉ a) (hb1 : ' ' ∉ b) (hc1 : ' ' ∉ c) :
    tokens (a ++ ' ' :: (b ++ ' ' :: c)) = [a, b, c] := by
  rw [tokens_unfold, strtok_token a _ ha ha1]
  simp only []
  rw [tokens_unfold, strtok_token b _ hb hb1]
  simp only []
  rw [tokens_unfold, strtok_last c hc hc1]
  simp only []
  rw [tokens_unfold, strtok_nil]

/-- The C string of a buffer that holds a NUL-free text, its terminator and any bytes. -/
theorem cstring_terminated (text garbage : List Char) (h : NUL ∉ text) :
    cstring (text ++ NUL :: garbage) = Outcome.done text := by
  unfold cstring
  have hmem : NUL ∈ text ++ NUL :: garbage := by simp
  rw [if_pos hmem]
  congr 1
  induction text with
  | nil => simp
  | cons c cs ih =>
    have hc : c ≠ NUL := fun e => h (by simp [e])
    have hcs : NUL ∉ cs := fun e => h (by simp [e])
    simp [List.takeWhile_cons, hc, ih hcs (by simp)]

end MessageQueue

namespace MessageQueue

/-- The message that `insertIntoBuffer` queues for a request whose text and terminator
fit in the buffer: the text, NUL, and the indeterminate bytes up to `MESSAGE_SIZE`. -/
theorem insertIntoBuffer_fits (stack : Nat → Char) (request : PrintRequest)
    (hfit : (formatRequest request).length + 1 ≤ MESSAGE_SIZE) :
    ∃ garbage, insertIntoBuffer stack request =
        Outcome.done (some (formatRequest request ++ NUL :: garbage)) ∧
      (formatRequest request ++ NUL :: garbage).length = MESSAGE_SIZE := by
  refine ⟨((List.range MESSAGE_SIZE).drop ((formatRequest request).length + 1)).map stack,
    ?_, ?_⟩
  · unfold insertIntoBuffer sprintfInto
    rw [if_pos hfit, bind_done]
    unfold mq_send
    rw [if_pos (Nat.le_refl _)]
    congr 2
    apply List.take_of_length_le
    simp
    omega
  · simp
    omega

/-- The request that `removeFromBuffer` returns for a message whose text has at least
three fields and at most `ARG_SIZE - 2`. -/
theorem removeFromBuffer_fields (args : Args) (buffer input t0 t1 t2 : List Char)
    (more : List (List Char)) (hin : cstring buffer = Outcome.done input)
    (htok : tokens input = t0 :: t1 :: t2 :: more) (hmore : more.length + 5 ≤ ARG_SIZE)
    (hid : LONG_MIN ≤ strtolValue t0 ∧ strtolValue t0 ≤ LONG_MAX)
    (hsz : INT_MIN ≤ strtolValue t2 ∧ strtolValue t2 ≤ INT_MAX) :
    removeFromBuffer args buffer =
      Outcome.done { clientID := strtolValue t0, fileName := t1, fileSize := strtolValue t2 } := by
  obtain ⟨args1, h1, h2⟩ := tokenize_input_spec args input
    (by rw [htok]; simp) (by rw [htok]; simp only [List.length_cons]; omega)
  have a0 : args1 0 = some t0 := by rw [h2 0 (by omega), htok]; rfl
  have a1 : args1 1 = some t1 := by
    rw [h2 1 (by rw [htok]; simp), htok]; rfl
  have a2 : args1 2 = some t2 := by
    rw [h2 2 (by rw [htok]; simp), htok]; simp
  unfold removeFromBuffer
  rw [hin, bind_done, h1, bind_done]
  simp only [a0, a1, a2, atol, atoi, hid, hsz, and_self, if_true, bind_done]

end MessageQueue

namespace MessageQueue

theorem formatRequest_no_nul (R : PrintRequest) (h : NUL ∉ R.fileName) :
    NUL ∉ formatRequest R := by
  unfold formatRequest
  intro hmem
  simp only [List.mem_append, List.mem_cons] at hmem
  rcases hmem with h1 | h1 | h1 | h1 | h1
  · exact (decimalInt_chars _ _ h1).2 rfl
  · exact absurd h1 (by decide)
  · exact h h1
  · exact absurd h1 (by decide)
  · exact (decimalInt_chars _ _ h1).2 rfl

/-- The fields of the text built for a request with a non-empty space-free file name. -/
theorem tokens_formatRequest (R : PrintRequest) (hne : R.fileName ≠ [])
    (hsp : ' ' ∉ R.fileName) :
    tokens (formatRequest R) = [decimalInt R.clientID, R.fileName, decimalInt R.fileSize] :=
  tokens_three _ _ _ (decimalInt_ne_nil _) hne (decimalInt_ne_nil _)
    (fun h => (decimalInt_chars _ _ h).1 rfl) hsp (fun h => (decimalInt_chars _ _ h).1 rfl)

/-- The round trip of a representable request with a non-empty space-free file name
whose text fits in the buffer. -/
theorem roundTrip_of_fits (stack : Nat → Char) (args : Args) (R : PrintRequest)
    (hrep : Representable R) (hne : R.fileName ≠ []) (hsp : ' ' ∉ R.fileName)
    (hfit : (formatRequest R).length + 1 ≤ MESSAGE_SIZE) :
    roundTrip stack args R = Outcome.done (some R) := by
  obtain ⟨h1, h2, h3, h4, h5⟩ := hrep
  obtain ⟨garbage, hins, _⟩ := insertIntoBuffer_fits stack R hfit
  unfold roundTrip
  rw [hins, bind_done]
  simp only []
  rw [removeFromBuffer_fields args _ (formatRequest R) (decimalInt R.clientID) R.fileName
    (decimalInt R.fileSize) [] (cstring_terminated _ _ (formatRequest_no_nul R h5))
    (tokens_formatRequest R hne hsp) (by decide)
    (by rw [strtolValue_decimalInt]; exact ⟨h1, h2⟩)
    (by rw [strtolValue_decimalInt]; exact ⟨h3, h4⟩)]
  simp only [strtolValue_decimalInt, bind_done]

/-- C3: codec round trip.  For every PrintRequest that the C type can hold, whose
fileName is non-empty and contains no space and whose encoded text with its
terminator fits in MESSAGE_SIZE (1024) bytes, decoding the frame that
insertIntoBuffer builds yields a request equal to it in clientID, fileName and
fileSize. -/
theorem codec_round_trip (stack : Nat → Char) (args : Args) (R : PrintRequest)
    (hrep : Representable R) (hne : R.fileName ≠ []) (hsp : ' ' ∉ R.fileName)
    (hfit : (formatRequest R).length + 1 ≤ MESSAGE_SIZE) :
    roundTrip stack args R = Outcome.done (some R) :=
  roundTrip_of_fits stack args R hrep hne hsp hfit

theorem codec_round_trip_witness :
    Representable sampleRequest ∧ sampleRequest.fileName ≠ [] ∧
      ' ' ∉ sampleRequest.fileName ∧
      (formatRequest sampleRequest).length + 1 ≤ MESSAGE_SIZE ∧
      roundTrip stackX noArgs sampleRequest = Outcome.done (some sampleRequest) :=
  ⟨by decide, by decide, by decide, by decide,
    codec_round_trip stackX noArgs sampleRequest (by decide) (by decide) (by decide)
      (by decide)⟩

/-- C4 as stated fails: a frame whose size field is not a number, a frame whose id
field is not a number and a frame of four fields are all decoded into a PrintRequest,
with 0 for the field that is not a number and the fourth field ignored. -/
theorem decode_rejects_malformed_counterexample :
    wellFormedText "7 FILE_7_1 abc".toList = false ∧
      removeFromBuffer noArgs (messageOf "7 FILE_7_1 abc") =
        Outcome.done ⟨7, "FILE_7_1".toList, 0⟩ ∧
      wellFormedText "x7 FILE_7_1 200".toList = false ∧
      removeFromBuffer noArgs (messageOf "x7 FILE_7_1 200") =
        Outcome.done ⟨0, "FILE_7_1".toList, 200⟩ ∧
      wellFormedText "7 FILE_7_1 200 9".toList = false ∧
      removeFromBuffer noArgs (messageOf "7 FILE_7_1 200 9") =
        Outcome.done ⟨7, "FILE_7_1".toList, 200⟩ := by
  decide

/-- C4, amended: removeFromBuffer validates nothing.  For every received frame whose
text has at least three and at most ARG_SIZE - 2 = 18 space-separated fields, where
the numbers that atol and atoi read from the first and the third field (optional
white space, an optional sign, the longest run of digits, 0 when there is none) lie
in the ranges of long and of int, it returns the PrintRequest made of these two
numbers and the second field; the fields after the third are ignored. -/
theorem decode_without_validation (args : Args) (buffer input t0 t1 t2 : List Char)
    (more : List (List Char)) (hin : cstring buffer = Outcome.done input)
    (htok : tokens input = t0 :: t1 :: t2 :: more) (hmore : more.length + 5 ≤ ARG_SIZE)
    (hid : LONG_MIN ≤ strtolValue t0 ∧ strtolValue t0 ≤ LONG_MAX)
    (hsz : INT_MIN ≤ strtolValue t2 ∧ strtolValue t2 ≤ INT_MAX) :
    removeFromBuffer args buffer =
      Outcome.done { clientID := strtolValue t0, fileName := t1, fileSize := strtolValue t2 } :=
  removeFromBuffer_fields args buffer input t0 t1 t2 more hin htok hmore hid hsz

theorem decode_without_validation_witness :
    cstring (messageOf "x7 FILE_7_1 abc 9") = Outcome.done "x7 FILE_7_1 abc 9".toList ∧
      tokens "x7 FILE_7_1 abc 9".toList =
        ["x7".toList, "FILE_7_1".toList, "abc".toList, "9".toList] ∧
      removeFromBuffer noArgs (messageOf "x7 FILE_7_1 abc 9") =
        Outcome.done { clientID := strtolValue "x7".toList, fileName := "FILE_7_1".toList,
                       fileSize := strtolValue "abc".toList } :=
  ⟨by decide, by decide,
    decode_without_validation noArgs (messageOf "x7 FILE_7_1 abc 9")
      "x7 FILE_7_1 abc 9".toList "x7".toList "FILE_7_1".toList "abc".toList ["9".toList]
      (by decide) (by decide) (by decide) (by decide) (by decide)⟩

/-- C5 as stated fails: the text of a request with a file name of 1100 characters
does not fit in MESSAGE_SIZE bytes, and insertIntoBuffer does not fail on it: sprintf
stores the text past the end of the buffer. -/
theorem encode_rejects_oversize_counterexample :
    MESSAGE_SIZE < (formatRequest bigRequest).length + 1 ∧
      insertIntoBuffer stackX bigRequest = Outcome.undefined Fault.overrun ∧
      insertIntoBuffer stackX bigRequest ≠ Outcome.done none := by
  have h7 : (decimalInt 7).length = 1 := by decide
  have h200 : (decimalInt 200).length = 3 := by decide
  have hlen : (formatRequest bigRequest).length = 1106 := by
    simp only [formatRequest, bigRequest, List.length_append, List.length_cons,
      List.length_replicate, h7, h200]
  have hins : insertIntoBuffer stackX bigRequest = Outcome.undefined Fault.overrun := by
    unfold insertIntoBuffer sprintfInto
    rw [hlen, if_neg (by decide)]
    rfl
  refine ⟨by rw [hlen]; decide, hins, ?_⟩
  rw [hins]
  exact fun h => Outcome.noConfusion h

/-- C5, amended: insertIntoBuffer checks no size and has no failure of its own.  It
never ends without a frame on account of the request, and for every request whose
encoded text with its terminator fits in MESSAGE_SIZE (1024) bytes it submits a frame
of exactly MESSAGE_SIZE bytes that starts with the encoded text and its terminator. -/
theorem encode_without_size_check (stack : Nat → Char) (R : PrintRequest) :
    insertIntoBuffer stack R ≠ Outcome.done none ∧
      ((formatRequest R).length + 1 ≤ MESSAGE_SIZE →
        ∃ frame, insertIntoBuffer stack R = Outcome.done (some frame) ∧
          frame.length = MESSAGE_SIZE ∧
          frame.take ((formatRequest R).length + 1) = formatRequest R ++ [NUL]) := by
  constructor
  · unfold insertIntoBuffer sprintfInto mq_send
    by_cases hfit : (formatRequest R).length + 1 ≤ MESSAGE_SIZE
    · simp [hfit]
    · simp [hfit]
  · intro hfit
    obtain ⟨garbage, h1, h2⟩ := insertIntoBuffer_fits stack R hfit
    refine ⟨_, h1, h2, ?_⟩
    rw [show formatRequest R ++ NUL :: garbage = (formatRequest R ++ [NUL]) ++ garbage by simp]
    apply List.take_left'
    simp

theorem encode_without_size_check_witness :
    (formatRequest sampleRequest).length + 1 ≤ MESSAGE_SIZE ∧
      ∃ frame, insertIntoBuffer stackX sampleRequest = Outcome.done (some frame) ∧
        frame.length = MESSAGE_SIZE ∧
        frame.take ((formatRequest sampleRequest).length + 1) =
          formatRequest sampleRequest ++ [NUL] :=
  ⟨by decide, (encode_without_size_check stackX sampleRequest).2 (by decide)⟩

end MessageQueue

namespace MessageQueue

/-- The file name of a decoded request is a token of `strtok`. -/
theorem removeFromBuffer_fileName (args : Args) (buffer : List Char) (r : PrintRequest)
    (h : removeFromBuffer args buffer = Outcome.done r) :
    ∃ s, (strtok s).1 = some r.fileName := by
  unfold removeFromBuffer at h
  obtain ⟨input, _, h⟩ := bind_eq_done h
  obtain ⟨tokenized, htok, h⟩ := bind_eq_done h
  obtain ⟨clientID, _, h⟩ := bind_eq_done h
  obtain ⟨fileName, hname, h⟩ := bind_eq_done h
  obtain ⟨fileSize, _, h⟩ := bind_eq_done h
  simp only [Outcome.done.injEq] at h
  subst h
  simp only []
  rcases tokenize_input_second args input tokenized.1 tokenized.2 htok with hnone | ⟨s, hs⟩
  · rw [hnone] at hname
    simp at hname
  · rw [hs] at hname
    refine ⟨s, ?_⟩
    cases hst : (strtok s).1 with
    | none => rw [hst] at hname; simp at hname
    | some t =>
      rw [hst] at hname
      simp only [Outcome.done.injEq] at hname
      rw [hname]

/-- C8: separator in the label.  For every PrintRequest whose fileName contains a
space, decoding the frame that insertIntoBuffer builds for it does not reproduce the
request: whenever a request is decoded, its fileName is a space-free token and so
differs from the fileName sent. -/
theorem separator_in_label_misparsed (stack : Nat → Char) (args : Args) (R : PrintRequest)
    (hsp : ' ' ∈ R.fileName) :
    roundTrip stack args R ≠ Outcome.done (some R) ∧
      ∀ r, roundTrip stack args R = Outcome.done (some r) →
        ' ' ∉ r.fileName ∧ r.fileName ≠ R.fileName := by
  have key : ∀ r, roundTrip stack args R = Outcome.done (some r) → ' ' ∉ r.fileName := by
    intro r h
    unfold roundTrip at h
    obtain ⟨sent, _, h⟩ := bind_eq_done h
    cases sent with
    | none => simp at h
    | some message =>
      simp only [] at h
      obtain ⟨r1, hrem, h⟩ := bind_eq_done h
      simp only [Outcome.done.injEq, Option.some.injEq] at h
      subst h
      obtain ⟨s, hs⟩ := removeFromBuffer_fileName args message r1 hrem
      exact (strtok_some s _ hs).1
  refine ⟨fun h => key R h hsp, fun r h => ⟨key r h, ?_⟩⟩
  intro heq
  exact key r h (heq ▸ hsp)

theorem separator_in_label_misparsed_witness :
    ' ' ∈ spaceRequest.fileName ∧
      roundTrip stackX noArgs spaceRequest = Outcome.done (some ⟨1, "a".toList, 0⟩) ∧
      (roundTrip stackX noArgs spaceRequest ≠ Outcome.done (some spaceRequest) ∧
        ∀ r, roundTrip stackX noArgs spaceRequest = Outcome.done (some r) →
          ' ' ∉ r.fileName ∧ r.fileName ≠ spaceRequest.fileName) :=
  ⟨by decide, by decide, separator_in_label_misparsed stackX noArgs spaceRequest (by decide)⟩

end MessageQueue

/-! ## Theorems about create_print_request -/

theorem randnum_range (r : Nat) : 200 ≤ randnum r ∧ randnum r ≤ 20000 := by
  unfold randnum
  have h1 : 0 ≤ Int.tmod (r : Int) 19801 := Int.tmod_nonneg _ (by omega)
  have h2 : Int.tmod (r : Int) 19801 < 19801 := Int.tmod_lt_of_pos _ (by norm_num)
  omega

/-- The value of the line `randnum = rand() % 19801 + 200;`. -/
theorem randnum_eq (r : Nat) : randnum r = ((r % 19801 + 200 : Nat) : Int) := by
  unfold randnum
  rw [Int.tmod_eq_emod (by omega) (by norm_num)]
  omega

/-- The fileSize of every request that create_print_request returns. -/
theorem create_print_request_fileSize (tid : Nat) (i : Int) (r : Nat) (R : PrintRequest)
    (h : create_print_request tid i r = Outcome.done R) : R.fileSize = randnum r := by
  unfold create_print_request at h
  simp only [] at h
  obtain ⟨pid, _, h⟩ := MessageQueue.bind_eq_done h
  obtain ⟨i1, _, h⟩ := MessageQueue.bind_eq_done h
  obtain ⟨iteration, _, h⟩ := MessageQueue.bind_eq_done h
  obtain ⟨fileName, _, h⟩ := MessageQueue.bind_eq_done h
  simp only [Outcome.done.injEq] at h
  rw [← h]

/-- C10: declared size range.  For every non-negative integer r returned by rand(),
create_print_request sets fileSize = r % 19801 + 200: this is the value of the line that
computes randnum, every request that create_print_request returns carries exactly this
fileSize, and a request is returned on the first round.  The value lies between 200 and
20000, so it is positive, and both endpoints are attained: 200 at r = 0 and 20000 at
r = 19800. -/
theorem fileSize_range (r : Nat) :
    randnum r = ((r % 19801 + 200 : Nat) : Int) ∧
      (∀ tid i R, create_print_request tid i r = Outcome.done R →
        R.fileSize = ((r % 19801 + 200 : Nat) : Int)) ∧
      create_print_request 7 0 r =
        Outcome.done ⟨7, "FILE_7_1".toList, ((r % 19801 + 200 : Nat) : Int)⟩ ∧
      200 ≤ ((r % 19801 + 200 : Nat) : Int) ∧ ((r % 19801 + 200 : Nat) : Int) ≤ 20000 ∧
      0 < ((r % 19801 + 200 : Nat) : Int) ∧
      (∃ r0 R, create_print_request 7 0 r0 = Outcome.done R ∧ R.fileSize = 200) ∧
      (∃ r1 R, create_print_request 7 0 r1 = Outcome.done R ∧ R.fileSize = 20000) := by
  have hmod : r % 19801 < 19801 := Nat.mod_lt _ (by norm_num)
  refine ⟨randnum_eq r, ?_, ?_, by omega, by omega, by omega, ?_, ?_⟩
  · intro tid i R h
    rw [create_print_request_fileSize tid i r R h, randnum_eq]
  · rw [← randnum_eq]
    rfl
  · exact ⟨0, ⟨7, "FILE_7_1".toList, 200⟩, by decide, rfl⟩
  · exact ⟨19800, ⟨7, "FILE_7_1".toList, 20000⟩, by decide, rfl⟩

/-- The last iteration index whose text fits the block of sizeof(int) = 4 bytes that
`malloc(sizeof(int))` guarantees is 998: the text of 999 and its terminator take four
bytes, the text of 1000 and its terminator five.  Past it the C standard does not
define the store, whatever the slack of a given allocator makes of it. -/
theorem create_print_request_block_limit :
    create_print_request 7 998 0 = Outcome.done ⟨7, "FILE_7_999".toList, 200⟩ ∧
      (decimalInt 999).length + 1 = SIZEOF_INT ∧
      (decimalInt 1000).length + 1 = SIZEOF_INT + 1 ∧
      create_print_request 7 999 0 = Outcome.undefined Fault.overrun := by
  decide

/-- What create_print_request returns on the iteration indices 0 to 998: a request whose
file name is FILE, the thread id and the round joined by underscores; the name is
non-empty and free of spaces, the frame built for the request is shorter than
MESSAGE_SIZE and has exactly three fields, and removeFromBuffer decodes the request
with the same clientID, fileName and fileSize. -/
theorem create_print_request_spec (tid : Nat) (i : Int) (r : Nat)
    (ht : tid ≤ ULONG_MAX) (hi0 : 0 ≤ i) (hi : i + 1 ≤ 999) :
    ∃ R, create_print_request tid i r = Outcome.done R ∧
      R.fileName = "FILE_".toList ++ decimalNat tid ++ "_".toList ++ decimalNat (i + 1).toNat ∧
      R.fileName ≠ [] ∧ ' ' ∉ R.fileName ∧
      (MessageQueue.formatRequest R).length + 1 < MessageQueue.MESSAGE_SIZE ∧
      MessageQueue.tokens (MessageQueue.formatRequest R) =
        [decimalInt R.clientID, R.fileName, decimalInt R.fileSize] ∧
      ∀ stack args, MessageQueue.roundTrip stack args R = Outcome.done (some R) := by
  unfold ULONG_MAX at ht
  have hp : (decimalNat tid).length ≤ 20 := decimalNat_length tid 20 (by norm_num) (by omega)
  have hq : (decimalNat (i + 1).toNat).length ≤ 3 :=
    decimalNat_length _ 3 (by norm_num) (by omega)
  have hdec : decimalInt (i + 1) = decimalNat (i + 1).toNat := by
    unfold decimalInt
    rw [if_neg (by omega)]
  have hname : ∀ c, c ∈ "FILE_".toList ++ decimalNat tid ++ "_".toList ++
      decimalNat (i + 1).toNat → c ≠ ' ' ∧ c ≠ NUL := by
    intro c hc
    simp only [List.mem_append] at hc
    rcases hc with ((hc | hc) | hc) | hc
    · have : c = 'F' ∨ c = 'I' ∨ c = 'L' ∨ c = 'E' ∨ c = '_' := by simpa using hc
      rcases this with rfl | rfl | rfl | rfl | rfl <;> decide
    · obtain ⟨d, hd, rfl⟩ := decimalNat_digits _ _ hc
      obtain ⟨_, _, h3, h4, _⟩ := digitChar_spec d hd
      exact ⟨h3, h4⟩
    · have : c = '_' := by simpa using hc
      subst this
      decide
    · obtain ⟨d, hd, rfl⟩ := decimalNat_digits _ _ hc
      obtain ⟨_, _, h3, h4, _⟩ := digitChar_spec d hd
      exact ⟨h3, h4⟩
  have hsize := randnum_range r
  obtain ⟨R, hR⟩ : ∃ R : PrintRequest, R =
      { clientID :=
          if (tid : Int) ≤ LONG_MAX then (tid : Int) else (tid : Int) - 18446744073709551616
        fileName := "FILE_".toList ++ decimalNat tid ++ "_".toList ++ decimalNat (i + 1).toNat
        fileSize := randnum r } := ⟨_, rfl⟩
  have hfn : R.fileName =
      "FILE_".toList ++ decimalNat tid ++ "_".toList ++ decimalNat (i + 1).toNat := by rw [hR]
  have hfs : R.fileSize = randnum r := by rw [hR]
  have hci : R.clientID =
      if (tid : Int) ≤ LONG_MAX then (tid : Int) else (tid : Int) - 18446744073709551616 := by
    rw [hR]
  have hcreate : create_print_request tid i r = Outcome.done R := by
    unfold create_print_request sprintfInto SIZEOF_INT INT_MAX
    simp only []
    rw [if_pos (by omega), MessageQueue.bind_done, if_pos (by omega), MessageQueue.bind_done,
      hdec, if_pos (by omega), MessageQueue.bind_done, if_pos (by simp; omega),
      MessageQueue.bind_done]
    rw [hR]
    simp
  have hne : R.fileName ≠ [] := by rw [hfn]; simp
  have hsp : ' ' ∉ R.fileName := fun h => (hname _ (hfn ▸ h)).1 rfl
  have hnul : NUL ∉ R.fileName := fun h => (hname _ (hfn ▸ h)).2 rfl
  have hid : LONG_MIN ≤ R.clientID ∧ R.clientID ≤ LONG_MAX := by
    rw [hci]
    simp only [LONG_MIN, LONG_MAX]
    split <;> omega
  have hrep : MessageQueue.Representable R := by
    refine ⟨hid.1, hid.2, ?_, ?_, hnul⟩
    · rw [hfs]; simp only [INT_MIN]; omega
    · rw [hfs]; simp only [INT_MAX]; omega
  have hlen : (MessageQueue.formatRequest R).length + 1 < MessageQueue.MESSAGE_SIZE := by
    have h1 : (decimalInt R.clientID).length ≤ 19 + 1 := by
      apply decimalInt_length _ 19 (by norm_num)
      unfold LONG_MIN LONG_MAX at hid
      omega
    have h2 : (decimalInt R.fileSize).length ≤ 5 + 1 := by
      apply decimalInt_length _ 5 (by norm_num)
      rw [hfs]
      omega
    have h3 : R.fileName.length ≤ 29 := by
      rw [hfn]
      simp only [List.length_append]
      have : "FILE_".toList.length = 5 := rfl
      have : "_".toList.length = 1 := rfl
      omega
    unfold MessageQueue.formatRequest MessageQueue.MESSAGE_SIZE
    simp only [List.length_append, List.length_cons]
    omega
  exact ⟨R, hcreate, hfn, hne, hsp, hlen, MessageQueue.tokens_formatRequest R hne hsp,
    fun stack args => MessageQueue.roundTrip_of_fits stack args R hrep hne hsp (by omega)⟩

/-- Every request that the loop of PrintClient creates, on any thread and whatever
rand() returns, is returned by create_print_request with the file name of its round
and is decoded by removeFromBuffer with the same clientID, fileName and fileSize. -/
theorem PrintClient_requests_decode (tid : Nat) (rand : Nat → Nat) (ht : tid ≤ ULONG_MAX) :
    (PrintClient_requests tid rand).length = 6 ∧
      ∀ (k : Nat) (x : Outcome PrintRequest), (PrintClient_requests tid rand)[k]? = some x →
        ∃ R, x = Outcome.done R ∧
          R.fileName = "FILE_".toList ++ decimalNat tid ++ "_".toList ++ decimalNat (k + 1) ∧
          R.fileName ≠ [] ∧ ' ' ∉ R.fileName ∧
          ∀ stack args, MessageQueue.roundTrip stack args R = Outcome.done (some R) := by
  refine ⟨by simp [PrintClient_requests], ?_⟩
  intro k x hx
  have hk : k < 6 := by
    by_contra hc
    rw [List.getElem?_eq_none (by simp [PrintClient_requests]; omega)] at hx
    simp at hx
  have hx2 : x = create_print_request tid (Int.ofNat k) (rand k) := by
    simp only [PrintClient_requests, List.getElem?_map, List.getElem?_range hk,
      Option.map_some', Option.some.injEq] at hx
    exact hx.symm
  obtain ⟨R, h1, h2, h3, h4, _, _, h7⟩ :=
    create_print_request_spec tid (Int.ofNat k) (rand k) ht (by simp)
      (by simp only [Int.ofNat_eq_coe]; omega)
  refine ⟨R, by rw [hx2, h1], ?_, h3, h4, h7⟩
  rw [h2]
  congr 1

theorem PrintClient_requests_decode_witness :
    (PrintClient_requests 140234567890123 (fun k => 100 * k)).length = 6 ∧
      ∀ (k : Nat) (x : Outcome PrintRequest),
        (PrintClient_requests 140234567890123 (fun k => 100 * k))[k]? = some x →
        ∃ R, x = Outcome.done R ∧
          R.fileName = "FILE_".toList ++ decimalNat 140234567890123 ++ "_".toList ++
            decimalNat (k + 1) ∧
          R.fileName ≠ [] ∧ ' ' ∉ R.fileName ∧
          ∀ stack args, MessageQueue.roundTrip stack args R = Outcome.done (some R) :=
  PrintClient_requests_decode 140234567890123 (fun k => 100 * k) (by decide)

namespace Printer

theorem getElem?_set_self_of_some {pc : List PC} {t : Nat} {p p1 : PC}
    (h : pc[t]? = some p) : (pc.set t p1)[t]? = some p1 := by
  have hlt : t < pc.length := by
    by_contra hc
    rw [List.getElem?_eq_none (by omega)] at h
    simp at h
  simp [List.getElem?_set, hlt]

theorem getElem?_set_of_ne {pc : List PC} {t u : Nat} {p1 : PC} (h : u ≠ t) :
    (pc.set t p1)[u]? = pc[u]? := by
  simp [List.getElem?_set, Ne.symm h]

/-- A step that keeps the mutex and does not enter or leave the critical section. -/
theorem excl_same {pc : List PC} {mx : Option Nat} {t : Nat} {p p1 : PC}
    (h : Excl pc mx) (hp : pc[t]? = some p) (hc : p1.inCritical = p.inCritical) :
    Excl (pc.set t p1) mx := by
  obtain ⟨h1, h2⟩ := h
  constructor
  · intro u hu
    obtain ⟨q, hq, hqc⟩ := h1 u hu
    by_cases hut : u = t
    · subst hut
      rw [hp] at hq
      simp only [Option.some.injEq] at hq
      subst hq
      exact ⟨p1, getElem?_set_self_of_some hp, by rw [hc, hqc]⟩
    · exact ⟨q, by rw [getElem?_set_of_ne hut, hq], hqc⟩
  · intro u q hq hqc
    by_cases hut : u = t
    · subst hut
      rw [getElem?_set_self_of_some hp] at hq
      simp only [Option.some.injEq] at hq
      subst hq
      exact h2 u p hp (by rw [← hc, hqc])
    · rw [getElem?_set_of_ne hut] at hq
      exact h2 u q hq hqc

/-- A step that takes the free mutex and enters the critical section. -/
theorem excl_acquire {pc : List PC} {t : Nat} {p p1 : PC}
    (h : Excl pc none) (hp : pc[t]? = some p) (hc : p1.inCritical = true) :
    Excl (pc.set t p1) (some t) := by
  obtain ⟨_, h2⟩ := h
  constructor
  · intro u hu
    simp only [Option.some.injEq] at hu
    subst hu
    exact ⟨p1, getElem?_set_self_of_some hp, hc⟩
  · intro u q hq hqc
    by_cases hut : u = t
    · rw [hut]
    · rw [getElem?_set_of_ne hut] at hq
      have := h2 u q hq hqc
      simp at this

/-- A step that leaves the critical section and releases the mutex. -/
theorem excl_release {pc : List PC} {mx : Option Nat} {t : Nat} {p p1 : PC}
    (h : Excl pc mx) (hp : pc[t]? = some p) (hpc : p.inCritical = true)
    (hc : p1.inCritical = false) :
    Excl (pc.set t p1) none := by
  obtain ⟨_, h2⟩ := h
  have hmx := h2 t p hp hpc
  constructor
  · intro u hu
    simp at hu
  · intro u q hq hqc
    by_cases hut : u = t
    · subst hut
      rw [getElem?_set_self_of_some hp] at hq
      simp only [Option.some.injEq] at hq
      subst hq
      rw [hc] at hqc
      simp at hqc
    · rw [getElem?_set_of_ne hut] at hq
      have := h2 u q hq hqc
      rw [hmx] at this
      simp only [Option.some.injEq] at this
      exact absurd this.symm hut

/-- Two threads in their critical sections are the same thread. -/
theorem excl_unique {pc : List PC} {mx : Option Nat} (h : Excl pc mx) {t u : Nat} {p q : PC}
    (hp : pc[t]? = some p) (hq : pc[u]? = some q) (hpc : p.inCritical = true)
    (hqc : q.inCritical = true) : t = u := by
  have h1 := h.2 t p hp hpc
  have h2 := h.2 u q hq hqc
  rw [h1] at h2
  simpa using h2

theorem run_append (ops1 ops2 : List Op) :
    ∀ (s s1 : Globals × List PrintRequest), run ops1 s = some s1 →
      run (ops1 ++ ops2) s = run ops2 s1 := by
  induction ops1 with
  | nil =>
    intro s s1 h
    simp only [run, Option.some.injEq] at h
    subst h
    rfl
  | cons op ops ih =>
    intro s s1 h
    obtain ⟨g, out⟩ := s
    cases op with
    | insert r =>
      simp only [run, List.cons_append] at h ⊢
      cases hins : insertIntoBuffer g r with
      | none => simp [hins] at h
      | some g2 =>
        simp only [hins] at h ⊢
        exact ih _ _ h
    | remove =>
      simp only [run, List.cons_append] at h ⊢
      cases hrem : removeFromBuffer g with
      | none => simp [hrem] at h
      | some p =>
        simp only [hrem] at h ⊢
        exact ih _ _ h

theorem safe_start (n : Nat) : Safe (start n) := by
  refine ⟨inv_init, ⟨?_, ?_⟩, ?_, ?_, rfl⟩
  · intro t h
    simp [start] at h
  · intro t p hp hc
    simp only [start, List.getElem?_replicate] at hp
    split at hp
    · simp only [Option.some.injEq] at hp
      subst hp
      simp [PC.inCritical] at hc
    · simp at hp
  · intro t r hp
    simp only [start, List.getElem?_replicate] at hp
    split at hp <;> simp at hp
  · intro t hp
    simp only [start, List.getElem?_replicate] at hp
    split at hp <;> simp at hp

end Printer

namespace Printer

/-- The places of the other threads after thread `t` has moved. -/
theorem put_take_preserved {pc : List PC} {g : Globals} {t : Nat} {p p1 : PC}
    (hput : ∀ (u : Nat) (r : PrintRequest),
      pc[u]? = some (PC.insPut r) → g.length_buffer ≠ BUFFER_SIZE)
    (htake : ∀ u : Nat, pc[u]? = some PC.remTake → g.length_buffer ≠ 0)
    (hp : pc[t]? = some p)
    (h1 : ∀ r, p1 = PC.insPut r → g.length_buffer ≠ BUFFER_SIZE)
    (h2 : p1 = PC.remTake → g.length_buffer ≠ 0) :
    (∀ (u : Nat) (r : PrintRequest),
      (pc.set t p1)[u]? = some (PC.insPut r) → g.length_buffer ≠ BUFFER_SIZE) ∧
    (∀ u : Nat, (pc.set t p1)[u]? = some PC.remTake → g.length_buffer ≠ 0) := by
  constructor
  · intro u r hu
    by_cases hut : u = t
    · subst hut
      rw [getElem?_set_self_of_some hp] at hu
      simp only [Option.some.injEq] at hu
      exact h1 r hu
    · rw [getElem?_set_of_ne hut] at hu
      exact hput u r hu
  · intro u hu
    by_cases hut : u = t
    · subst hut
      rw [getElem?_set_self_of_some hp] at hu
      simp only [Option.some.injEq] at hu
      exact h2 hu
    · rw [getElem?_set_of_ne hut] at hu
      exact htake u hu

theorem safe_move_same {s : System} {t : Nat} {p p1 : PC} (hs : Safe s)
    (hp : s.pc[t]? = some p) (hc : p1.inCritical = p.inCritical)
    (h1 : ∀ r, p1 = PC.insPut r → s.globals.length_buffer ≠ BUFFER_SIZE)
    (h2 : p1 = PC.remTake → s.globals.length_buffer ≠ 0) :
    Safe { s with pc := s.pc.set t p1 } := by
  obtain ⟨hput, htake⟩ := put_take_preserved hs.put hs.take hp h1 h2
  exact ⟨hs.inv, excl_same hs.excl hp hc, hput, htake, hs.linear⟩

theorem safe_move_acquire {s : System} {t : Nat} {p p1 : PC} (hs : Safe s)
    (hp : s.pc[t]? = some p) (hmx : s.count_mutex = none) (hc : p1.inCritical = true)
    (h1 : ∀ r, p1 ≠ PC.insPut r) (h2 : p1 ≠ PC.remTake) :
    Safe { s with count_mutex := some t, pc := s.pc.set t p1 } := by
  obtain ⟨hput, htake⟩ := put_take_preserved hs.put hs.take hp
    (fun r e => absurd e (h1 r)) (fun e => absurd e h2)
  exact ⟨hs.inv, excl_acquire (hmx ▸ hs.excl) hp hc, hput, htake, hs.linear⟩

theorem safe_move_release {s : System} {t : Nat} {p p1 : PC} (hs : Safe s)
    (hp : s.pc[t]? = some p) (hpc : p.inCritical = true) (hc : p1.inCritical = false) :
    Safe { s with count_mutex := none, pc := s.pc.set t p1 } := by
  have h1 : ∀ r, p1 = PC.insPut r → s.globals.length_buffer ≠ BUFFER_SIZE := by
    intro r e
    subst e
    simp [PC.inCritical] at hc
  have h2 : p1 = PC.remTake → s.globals.length_buffer ≠ 0 := by
    intro e
    subst e
    simp [PC.inCritical] at hc
  obtain ⟨hput, htake⟩ := put_take_preserved hs.put hs.take hp h1 h2
  exact ⟨hs.inv, excl_release hs.excl hp hpc hc, hput, htake, hs.linear⟩

/-- After a thread in its critical section has moved, no other thread is in a critical
section. -/
theorem only_critical {pc : List PC} {mx : Option Nat} {t : Nat} {p : PC} (p1 : PC)
    (hex : Excl pc mx) (hp : pc[t]? = some p) (hpc : p.inCritical = true) :
    ∀ (u : Nat) (q : PC), (pc.set t p1)[u]? = some q → q.inCritical = true → q = p1 := by
  intro u q hq hqc
  by_cases hut : u = t
  · subst hut
    rw [getElem?_set_self_of_some hp] at hq
    simpa using hq.symm
  · rw [getElem?_set_of_ne hut] at hq
    exact absurd (excl_unique hex hq hp hqc hpc) hut

theorem safe_put {s : System} {t : Nat} {r : PrintRequest} (hs : Safe s)
    (hp : s.pc[t]? = some (PC.insPut r)) :
    Safe { s with globals := insertMutation s.globals r, pc := s.pc.set t PC.insSignal,
                  log := s.log ++ [Op.insert r] } := by
  have hroom := hs.put t r hp
  have honly := only_critical PC.insSignal hs.excl hp rfl
  refine ⟨(insert_spec _ r hs.inv hroom).1, excl_same hs.excl hp rfl, ?_, ?_, ?_⟩
  · intro u r1 hu
    have := honly u _ hu rfl
    simp at this
  · intro u hu
    have := honly u _ hu rfl
    simp at this
  · show run (s.log ++ [Op.insert r]) (init, []) = some (insertMutation s.globals r, s.out)
    rw [run_append _ _ _ _ hs.linear]
    have : insertGuard s.globals = false := by simpa [insertGuard] using hroom
    simp [run, insertIntoBuffer, this]

theorem safe_take {s : System} {t : Nat} (hs : Safe s) (hp : s.pc[t]? = some PC.remTake) :
    Safe { s with globals := (removeMutation s.globals).2,
                  pc := s.pc.set t (PC.remSignal (removeMutation s.globals).1),
                  log := s.log ++ [Op.remove],
                  out := s.out ++ [(removeMutation s.globals).1] } := by
  have hsome := hs.take t hp
  have honly := only_critical (PC.remSignal (removeMutation s.globals).1) hs.excl hp rfl
  refine ⟨(remove_spec _ hs.inv hsome).1, excl_same hs.excl hp rfl, ?_, ?_, ?_⟩
  · intro u r1 hu
    have := honly u _ hu rfl
    simp at this
  · intro u hu
    have := honly u _ hu rfl
    simp at this
  · show run (s.log ++ [Op.remove]) (init, []) =
      some ((removeMutation s.globals).2, s.out ++ [(removeMutation s.globals).1])
    rw [run_append _ _ _ _ hs.linear]
    have : removeGuard s.globals = false := by simpa [removeGuard] using hsome
    simp [run, removeFromBuffer, this]

/-- Every step keeps the invariant. -/
theorem step_safe {s s1 : System} {t : Nat} {m : Move} (hs : Safe s)
    (h : step s t m = some s1) : Safe s1 := by
  unfold step at h
  split at h
  case h_1 r hp =>
    simp only [Option.some.injEq] at h; subst h
    exact safe_move_same hs hp rfl (fun _ e => by simp at e) (fun e => by simp at e)
  case h_2 hp =>
    simp only [Option.some.injEq] at h; subst h
    exact safe_move_same hs hp rfl (fun _ e => by simp at e) (fun e => by simp at e)
  case h_3 r hp =>
    split at h
    · rename_i hmx
      simp only [Option.some.injEq] at h; subst h
      exact safe_move_acquire hs hp hmx rfl (fun _ e => by simp at e) (fun e => by simp at e)
    · simp at h
  case h_4 r hp =>
    split at h
    · simp only [Option.some.injEq] at h; subst h
      exact safe_move_release hs hp rfl rfl
    · rename_i hg
      simp only [Option.some.injEq] at h; subst h
      refine safe_move_same hs hp rfl (fun _ _ => ?_) (fun e => by simp at e)
      simpa [insertGuard] using hg
  case h_5 r hp =>
    simp only [Option.some.injEq] at h; subst h
    exact safe_move_same hs hp rfl (fun _ e => by simp at e) (fun e => by simp at e)
  case h_6 r hp =>
    split at h
    · rename_i hmx
      simp only [Option.some.injEq] at h; subst h
      exact safe_move_acquire hs hp hmx rfl (fun _ e => by simp at e) (fun e => by simp at e)
    · simp at h
  case h_7 r hp =>
    simp only [Option.some.injEq] at h; subst h
    exact safe_put hs hp
  case h_8 hp =>
    simp only [Option.some.injEq] at h; subst h
    exact safe_move_same hs hp rfl (fun _ e => by simp at e) (fun e => by simp at e)
  case h_9 hp =>
    simp only [Option.some.injEq] at h; subst h
    exact safe_move_release hs hp rfl rfl
  case h_10 hp =>
    split at h
    · rename_i hmx
      simp only [Option.some.injEq] at h; subst h
      exact safe_move_acquire hs hp hmx rfl (fun _ e => by simp at e) (fun e => by simp at e)
    · simp at h
  case h_11 hp =>
    split at h
    · simp only [Option.some.injEq] at h; subst h
      exact safe_move_release hs hp rfl rfl
    · rename_i hg
      simp only [Option.some.injEq] at h; subst h
      refine safe_move_same hs hp rfl (fun _ e => by simp at e) (fun _ => ?_)
      simpa [removeGuard] using hg
  case h_12 hp =>
    simp only [Option.some.injEq] at h; subst h
    exact safe_move_same hs hp rfl (fun _ e => by simp at e) (fun e => by simp at e)
  case h_13 hp =>
    split at h
    · rename_i hmx
      simp only [Option.some.injEq] at h; subst h
      exact safe_move_acquire hs hp hmx rfl (fun _ e => by simp at e) (fun e => by simp at e)
    · simp at h
  case h_14 hp =>
    simp only [Option.some.injEq] at h; subst h
    exact safe_take hs hp
  case h_15 r hp =>
    simp only [Option.some.injEq] at h; subst h
    exact safe_move_same hs hp rfl (fun _ e => by simp at e) (fun e => by simp at e)
  case h_16 r hp =>
    simp only [Option.some.injEq] at h; subst h
    exact safe_move_release hs hp rfl rfl
  case h_17 => simp at h

/-- Every state that a schedule leads to from a state of the invariant has the invariant. -/
theorem exec_safe (sched : List (Nat × Move)) :
    ∀ s s1 : System, Safe s → exec s sched = some s1 → Safe s1 := by
  induction sched with
  | nil =>
    intro s s1 hs h
    simp only [exec, Option.some.injEq] at h
    exact h ▸ hs
  | cons tm rest ih =>
    intro s s1 hs h
    obtain ⟨t, m⟩ := tm
    simp only [exec] at h
    cases hst : step s t m with
    | none => simp [hst] at h
    | some s2 =>
      simp only [hst] at h
      exact ih s2 s1 (step_safe hs hst) h

end Printer

namespace Printer

/-- A step changes the shared variables only by the mutation of a thread about to
store or about to take. -/
theorem step_globals {s s1 : System} {t : Nat} {m : Move} (h : step s t m = some s1) :
    s1.globals = s.globals ∨
      (∃ r, s.pc[t]? = some (PC.insPut r) ∧ s1.globals = insertMutation s.globals r) ∨
      (s.pc[t]? = some PC.remTake ∧ s1.globals = (removeMutation s.globals).2) := by
  unfold step at h
  split at h
  case h_7 r hp =>
    simp only [Option.some.injEq] at h; subst h
    exact Or.inr (Or.inl ⟨r, hp, rfl⟩)
  case h_14 hp =>
    simp only [Option.some.injEq] at h; subst h
    exact Or.inr (Or.inr ⟨hp, rfl⟩)
  all_goals first
    | (simp only [Option.some.injEq] at h; subst h; exact Or.inl rfl)
    | (split at h
       · simp only [Option.some.injEq] at h; subst h; exact Or.inl rfl
       · first
          | (simp only [Option.some.injEq] at h; subst h; exact Or.inl rfl)
          | simp at h)
    | simp at h

theorem accesses_inCritical (p : PC) (h : p.accesses = true) : p.inCritical = true := by
  cases p <;> simp [PC.accesses] at h <;> rfl

/-- C7: mutual exclusion.  In every state that any schedule of any number of threads
leads to, two threads between pthread_mutex_lock and pthread_mutex_unlock (and not
blocked in pthread_cond_wait) are the same thread; a thread whose next statement reads
or writes BoundedBuffer, length_buffer, front or back holds count_mutex; the holder of
count_mutex is in its critical section; and a step that changes the shared variables
is a step of the thread that holds count_mutex. -/
theorem mutual_exclusion (n : Nat) (sched : List (Nat × Move)) (s : System)
    (h : exec (start n) sched = some s) :
    (∀ (t u : Nat) (p q : PC), s.pc[t]? = some p → s.pc[u]? = some q →
        p.inCritical = true → q.inCritical = true → t = u) ∧
      (∀ (t : Nat) (p : PC), s.pc[t]? = some p → p.accesses = true →
        s.count_mutex = some t) ∧
      (∀ t : Nat, s.count_mutex = some t → ∃ p, s.pc[t]? = some p ∧ p.inCritical = true) ∧
      (∀ (t : Nat) (m : Move) (s1 : System), step s t m = some s1 →
        s1.globals ≠ s.globals → s.count_mutex = some t) := by
  have hs := exec_safe sched _ _ (safe_start n) h
  refine ⟨?_, ?_, hs.excl.1, ?_⟩
  · intro t u p q hp hq hpc hqc
    exact excl_unique hs.excl hp hq hpc hqc
  · intro t p hp ha
    exact hs.excl.2 t p hp (accesses_inCritical p ha)
  · intro t m s1 hst hne
    rcases step_globals hst with h1 | ⟨r, hp, _⟩ | ⟨hp, _⟩
    · exact absurd h1 hne
    · exact hs.excl.2 t _ hp rfl
    · exact hs.excl.2 t _ hp rfl

theorem mutual_exclusion_witness :
    exec (start 2) fullSchedule = some fullState ∧
      fullState.count_mutex = some 1 ∧
      ((∀ (t u : Nat) (p q : PC), fullState.pc[t]? = some p → fullState.pc[u]? = some q →
          p.inCritical = true → q.inCritical = true → t = u) ∧
        (∀ (t : Nat) (p : PC), fullState.pc[t]? = some p → p.accesses = true →
          fullState.count_mutex = some t) ∧
        (∀ t : Nat, fullState.count_mutex = some t →
          ∃ p, fullState.pc[t]? = some p ∧ p.inCritical = true) ∧
        (∀ (t : Nat) (m : Move) (s1 : System), step fullState t m = some s1 →
          s1.globals ≠ fullState.globals → fullState.count_mutex = some t)) :=
  ⟨by decide, by decide, mutual_exclusion 2 fullSchedule fullState (by decide)⟩

end Printer

namespace Printer

/-- The interleaved program refines the operations taken one at a time: in every state
that a schedule of any number of threads leads to, the shared variables are the result
of running the recorded operations one after the other, each with its guard false; so
the length stays between 0 and BUFFER_SIZE and the requests taken followed by the
requests stored are the requests inserted, in order. -/
theorem threads_refine_operations (n : Nat) (sched : List (Nat × Move)) (s : System)
    (h : exec (start n) sched = some s) :
    run s.log (init, []) = some (s.globals, s.out) ∧
      0 ≤ s.globals.length_buffer ∧ s.globals.length_buffer ≤ BUFFER_SIZE ∧
      s.out ++ contents s.globals = inserted s.log := by
  have hs := exec_safe sched _ _ (safe_start n) h
  obtain ⟨_, heq⟩ := run_spec s.log init [] s.globals s.out inv_init hs.linear
  rw [contents_init] at heq
  exact ⟨hs.linear, hs.inv.len_nonneg, hs.inv.len_le, by simpa using heq⟩

theorem threads_refine_operations_witness :
    run resumedState.log (init, []) = some (resumedState.globals, resumedState.out) ∧
      0 ≤ resumedState.globals.length_buffer ∧
      resumedState.globals.length_buffer ≤ BUFFER_SIZE ∧
      resumedState.out ++ contents resumedState.globals = inserted resumedState.log :=
  threads_refine_operations 2 (fullSchedule ++ resumeSchedule) resumedState (by decide)

end Printer
